import Mathlib

/-!
Verification of the devp2p framing / command-multiplexing layer
(`p2p/protocol.py`, `p2p/p2p_proto.py`).

Byte strings are modelled as `List Nat` (each element a byte value < 256
where it matters).  The external collaborators are modelled as follows:

* the RLP codec (the `rlp` library: `rlp.encode`, `rlp.decode`, the sedes
  `big_endian_int`, `text`, `binary`, `List`, `CountableList`) is embedded
  concretely below, following the library's documented behaviour, including
  its exception taxonomy (`DecodingError` vs `DeserializationError` /
  `ListDeserializationError`, which are distinct, sibling exception classes);
* snappy compression/decompression are opaque byte-transformations that the
  commands only ever select between; they are passed as explicit function
  parameters (`sc`/`sd`) since no claim depends on their behaviour;
* `NULL_BYTE` (from `eth.constants`) is the zero byte.
-/

namespace Trinity

/-! ## Big-endian byte encodings of integers -/

/-- Minimal big-endian byte representation of a natural number
(`int_to_big_endian`; `0` is represented by the empty byte string, matching
`rlp.sedes.big_endian_int.serialize`).  Implemented with a fuel argument so
that it is structurally recursive (hence kernel-computable); `beBytes_eq`
below identifies it with `(Nat.digits 256 n).reverse`. -/
def beBytesAux : Nat → Nat → List Nat
  | 0, _ => []
  | fuel + 1, n => if n = 0 then [] else beBytesAux fuel (n / 256) ++ [n % 256]

def beBytes (n : Nat) : List Nat := beBytesAux n n

/-- Big-endian interpretation of a byte string (`big_endian_to_int`). -/
def beVal (bs : List Nat) : Nat := bs.foldl (fun acc b => acc * 256 + b) 0

/-- Fixed-width big-endian encoding, most significant byte first
(`struct.pack` with a fixed size). -/
def beFixed : Nat → Nat → List Nat
  | 0, _ => []
  | k + 1, n => beFixed k (n / 256) ++ [n % 256]

/-- `int.bit_length` of Python, via fuel for structural recursion. -/
def bitLengthAux : Nat → Nat → Nat
  | 0, _ => 0
  | fuel + 1, n => if n = 0 then 0 else bitLengthAux fuel (n / 2) + 1

def bit_length (n : Nat) : Nat := bitLengthAux n n

theorem beBytesAux_eq (fuel n : Nat) (h : n ≤ fuel) :
    beBytesAux fuel n = (Nat.digits 256 n).reverse := by
  induction fuel generalizing n with
  | zero =>
    interval_cases n
    simp [beBytesAux]
  | succ fuel ih =>
    by_cases h0 : n = 0
    · simp [beBytesAux, h0]
    · rw [beBytesAux, if_neg h0, ih (n / 256) (by omega),
        Nat.digits_def' (by norm_num : (1:Nat) < 256) (Nat.pos_of_ne_zero h0)]
      simp

theorem beBytes_eq (n : Nat) : beBytes n = (Nat.digits 256 n).reverse :=
  beBytesAux_eq n n le_rfl

theorem beVal_eq_ofDigits (bs : List Nat) : beVal bs = Nat.ofDigits 256 bs.reverse := by
  induction bs using List.reverseRecOn with
  | nil => simp [beVal, Nat.ofDigits]
  | append_singleton xs x ih =>
    simp only [beVal, List.foldl_append, List.foldl_cons, List.foldl_nil,
      List.reverse_append, List.reverse_cons, List.reverse_nil, List.nil_append,
      List.singleton_append, Nat.ofDigits_cons] at *
    rw [ih]
    ring

/-- Round trip: interpreting the minimal big-endian bytes gives the number back. -/
theorem beVal_beBytes (n : Nat) : beVal (beBytes n) = n := by
  rw [beBytes_eq, beVal_eq_ofDigits, List.reverse_reverse, Nat.ofDigits_digits]

theorem beBytes_zero : beBytes 0 = [] := rfl

theorem beBytes_len_le_iff (n k : Nat) : (beBytes n).length ≤ k ↔ n < 256 ^ k := by
  rw [beBytes_eq, List.length_reverse]
  constructor
  · intro h
    calc n < 256 ^ (Nat.digits 256 n).length := Nat.lt_base_pow_length_digits (by norm_num)
    _ ≤ 256 ^ k := Nat.pow_le_pow_right (by norm_num) h
  · intro h
    by_contra hlen
    push_neg at hlen
    rcases Nat.eq_zero_or_pos n with h0 | h0
    · simp [h0] at hlen
    · have h1 : 256 ^ (Nat.digits 256 n).length ≤ 256 * n :=
        Nat.base_pow_length_digits_le 256 n (by norm_num) (by omega)
      have h2 : 256 ^ (k + 1) ≤ 256 ^ (Nat.digits 256 n).length :=
        Nat.pow_le_pow_right (by norm_num) hlen
      have h3 : 256 ^ (k + 1) = 256 * 256 ^ k := by ring
      have h4 : 256 ^ k ≤ n := by
        have := h2.trans h1
        rw [h3] at this
        omega
      omega

theorem beBytes_ne_nil (n : Nat) (h : n ≠ 0) : beBytes n ≠ [] := by
  rw [beBytes_eq]
  simp [Nat.digits_ne_nil_iff_ne_zero.mpr h]

/-- Minimality: the most significant byte of a nonzero number is not zero. -/
theorem beBytes_head_ne_zero (n : Nat) (h : n ≠ 0) : (beBytes n).head? ≠ some 0 := by
  rw [beBytes_eq]
  have hne : Nat.digits 256 n ≠ [] := Nat.digits_ne_nil_iff_ne_zero.mpr h
  rw [List.head?_reverse]
  rw [List.getLast?_eq_getLast _ hne]
  simp only [ne_eq, Option.some.injEq]
  exact Nat.getLast_digit_ne_zero 256 h

theorem beBytes_head_lt (n : Nat) (b : Nat) (h : (beBytes n).head? = some b) : b < 256 := by
  rw [beBytes_eq, List.head?_reverse] at h
  have hne : Nat.digits 256 n ≠ [] := by
    intro hnil
    rw [hnil] at h
    simp at h
  rw [List.getLast?_eq_getLast _ hne] at h
  have hmem : b ∈ Nat.digits 256 n := by
    rw [← Option.some_inj.mp h]
    exact List.getLast_mem hne
  exact Nat.digits_lt_base (by norm_num) hmem

theorem beFixed_length (k n : Nat) : (beFixed k n).length = k := by
  induction k generalizing n with
  | zero => rfl
  | succ k ih => simp [beFixed, ih]

/-- Dropping the leading byte of a 4-byte big-endian encoding of a value
below `2^24` yields its 3-byte big-endian encoding. -/
theorem beFixed_four_drop (n : Nat) (h : n < 2 ^ 24) :
    (beFixed 4 n).drop 1 = beFixed 3 n := by
  have h1 : n / 256 / 256 / 256 = 0 := by omega
  simp [beFixed, h1]

theorem bitLengthAux_le_iff (fuel n k : Nat) (h : n ≤ fuel) :
    bitLengthAux fuel n ≤ k ↔ n < 2 ^ k := by
  induction fuel generalizing n k with
  | zero =>
    interval_cases n
    simp [bitLengthAux, Nat.pos_pow_of_pos]
  | succ fuel ih =>
    by_cases h0 : n = 0
    · subst h0
      simp [bitLengthAux, Nat.pos_pow_of_pos]
    · rw [bitLengthAux, if_neg h0]
      cases k with
      | zero =>
        simp only [Nat.add_one_le_iff, Nat.pow_zero, Nat.lt_one_iff]
        constructor
        · omega
        · intro hc; exact absurd hc h0
      | succ k =>
        rw [Nat.add_le_add_iff_right, ih (n / 2) k (by omega)]
        constructor
        · intro hlt
          have : 2 ^ (k + 1) = 2 * 2 ^ k := by ring
          omega
        · intro hlt
          have : 2 ^ (k + 1) = 2 * 2 ^ k := by ring
          omega

/-- `frame_size.bit_length() > 24` is exactly `frame_size ≥ 2^24`. -/
theorem bit_length_gt_24_iff (n : Nat) : bit_length n > 24 ↔ 2 ^ 24 ≤ n := by
  have := bitLengthAux_le_iff n n 24 le_rfl
  unfold bit_length
  omega

/-! ## UTF-8 (Python `str.encode('utf-8')` / `bytes.decode('utf-8')`)

Python strings are sequences of code points; modelled as `List Nat`.
A code point is encodable iff it is a Unicode scalar value (not a
surrogate, below `0x110000`); `str.encode('utf-8')` raises
`UnicodeEncodeError` otherwise, and the strict decoder rejects surrogates,
overlong forms and values above `0x10FFFF`. -/

def validScalar (c : Nat) : Bool := c < 0xd800 || (0xe000 ≤ c && c < 0x110000)

def utf8EncodeChar (c : Nat) : List Nat :=
  if c < 0x80 then [c]
  else if c < 0x800 then [0xc0 + c / 64, 0x80 + c % 64]
  else if c < 0x10000 then [0xe0 + c / 4096, 0x80 + c / 64 % 64, 0x80 + c % 64]
  else [0xf0 + c / 262144, 0x80 + c / 4096 % 64, 0x80 + c / 64 % 64, 0x80 + c % 64]

def utf8Encode (cps : List Nat) : List Nat := (cps.map utf8EncodeChar).flatten

def isCont (b : Nat) : Bool := 0x80 ≤ b && b < 0xc0

/-- Continuation handling for a 2-byte UTF-8 sequence. -/
def utf8Cont1 (b0 : Nat) : List Nat → Option (Nat × List Nat)
  | b1 :: rest1 =>
    if isCont b1 then some ((b0 - 0xc0) * 64 + (b1 - 0x80), rest1) else none
  | _ => none

/-- Continuation handling for a 3-byte UTF-8 sequence (rejecting overlong
encodings and surrogates, as Python's strict codec does). -/
def utf8Cont2 (b0 : Nat) : List Nat → Option (Nat × List Nat)
  | b1 :: b2 :: rest2 =>
    if isCont b1 && isCont b2 then
      let c := (b0 - 0xe0) * 4096 + (b1 - 0x80) * 64 + (b2 - 0x80)
      if 0x800 ≤ c && !(0xd800 ≤ c && c < 0xe000) then some (c, rest2) else none
    else none
  | _ => none

/-- Continuation handling for a 4-byte UTF-8 sequence. -/
def utf8Cont3 (b0 : Nat) : List Nat → Option (Nat × List Nat)
  | b1 :: b2 :: b3 :: rest3 =>
    if isCont b1 && isCont b2 && isCont b3 then
      let c := (b0 - 0xf0) * 262144 + (b1 - 0x80) * 4096
        + (b2 - 0x80) * 64 + (b3 - 0x80)
      if 0x10000 ≤ c && c < 0x110000 then some (c, rest3) else none
    else none
  | _ => none

/-- Strict decoding of one UTF-8-encoded code point from the front of a byte
string; `none` on any invalid, truncated, overlong or surrogate encoding
(Python raises `UnicodeDecodeError` there). -/
def utf8DecodeOne : List Nat → Option (Nat × List Nat)
  | [] => none
  | b0 :: rest =>
    if b0 < 0x80 then some (b0, rest)
    else if b0 < 0xc2 then none
    else if b0 < 0xe0 then utf8Cont1 b0 rest
    else if b0 < 0xf0 then utf8Cont2 b0 rest
    else if b0 < 0xf5 then utf8Cont3 b0 rest
    else none

def utf8DecodeAux : Nat → List Nat → Option (List Nat)
  | _, [] => some []
  | 0, _ :: _ => none
  | fuel + 1, b0 :: rest =>
    match utf8DecodeOne (b0 :: rest) with
    | none => none
    | some (c, rest1) => (utf8DecodeAux fuel rest1).map (c :: ·)

/-- Strict UTF-8 decoding of a whole byte string to a code-point sequence
(`bytes.decode('utf-8')`); each code point consumes at least one byte, so
`length` fuel suffices. -/
def utf8Decode (bs : List Nat) : Option (List Nat) := utf8DecodeAux bs.length bs

theorem utf8EncodeChar_length_pos (c : Nat) : 1 ≤ (utf8EncodeChar c).length := by
  unfold utf8EncodeChar
  split_ifs <;> simp

theorem utf8DecodeOne_encodeChar (c : Nat) (h : validScalar c = true) (rest : List Nat) :
    utf8DecodeOne (utf8EncodeChar c ++ rest) = some (c, rest) := by
  simp only [validScalar, Bool.or_eq_true, Bool.and_eq_true, decide_eq_true_eq] at h
  unfold utf8EncodeChar
  by_cases h1 : c < 0x80
  · simp only [if_pos h1, List.cons_append, List.nil_append]
    rw [utf8DecodeOne, if_pos h1]
  · rw [if_neg h1]
    by_cases h2 : c < 0x800
    · simp only [if_pos h2, List.cons_append, List.nil_append]
      have e1 : ¬ (0xc0 + c / 64 < 0x80) := by omega
      have e2 : ¬ (0xc0 + c / 64 < 0xc2) := by omega
      have e3 : 0xc0 + c / 64 < 0xe0 := by omega
      have e4 : isCont (0x80 + c % 64) = true := by
        simp only [isCont, Bool.and_eq_true, decide_eq_true_eq]
        constructor <;> omega
      rw [utf8DecodeOne, if_neg e1, if_neg e2, if_pos e3, utf8Cont1, if_pos e4]
      have e5 : (0xc0 + c / 64 - 0xc0) * 64 + (0x80 + c % 64 - 0x80) = c := by omega
      rw [e5]
    · rw [if_neg h2]
      by_cases h3 : c < 0x10000
      · simp only [if_pos h3, List.cons_append, List.nil_append]
        have e1 : ¬ (0xe0 + c / 4096 < 0x80) := by omega
        have e2 : ¬ (0xe0 + c / 4096 < 0xc2) := by omega
        have e3 : ¬ (0xe0 + c / 4096 < 0xe0) := by omega
        have e4 : 0xe0 + c / 4096 < 0xf0 := by omega
        have e5 : (isCont (0x80 + c / 64 % 64) && isCont (0x80 + c % 64)) = true := by
          simp only [isCont, Bool.and_eq_true, decide_eq_true_eq]
          refine ⟨⟨?_, ?_⟩, ?_, ?_⟩ <;> omega
        rw [utf8DecodeOne, if_neg e1, if_neg e2, if_neg e3, if_pos e4, utf8Cont2, if_pos e5]
        have e6 : (0xe0 + c / 4096 - 0xe0) * 4096 + (0x80 + c / 64 % 64 - 0x80) * 64
            + (0x80 + c % 64 - 0x80) = c := by omega
        simp only [e6]
        have e7 : (0x800 ≤ c && !(0xd800 ≤ c && c < 0xe000)) = true := by
          simp only [Bool.and_eq_true, Bool.not_eq_true', Bool.and_eq_false_iff,
            decide_eq_true_eq, decide_eq_false_iff_not, not_le, not_lt]
          omega
        rw [if_pos e7]
      · simp only [if_neg h3, List.cons_append, List.nil_append]
        have hc17 : c < 0x110000 := by omega
        have e1 : ¬ (0xf0 + c / 262144 < 0x80) := by omega
        have e2 : ¬ (0xf0 + c / 262144 < 0xc2) := by omega
        have e3 : ¬ (0xf0 + c / 262144 < 0xe0) := by omega
        have e4 : ¬ (0xf0 + c / 262144 < 0xf0) := by omega
        have e5 : 0xf0 + c / 262144 < 0xf5 := by omega
        have e6 : (isCont (0x80 + c / 4096 % 64) && isCont (0x80 + c / 64 % 64)
            && isCont (0x80 + c % 64)) = true := by
          simp only [isCont, Bool.and_eq_true, decide_eq_true_eq]
          refine ⟨⟨⟨?_, ?_⟩, ?_, ?_⟩, ?_, ?_⟩ <;> omega
        rw [utf8DecodeOne, if_neg e1, if_neg e2, if_neg e3, if_neg e4, if_pos e5,
          utf8Cont3, if_pos e6]
        have e7 : (0xf0 + c / 262144 - 0xf0) * 262144 + (0x80 + c / 4096 % 64 - 0x80) * 4096
            + (0x80 + c / 64 % 64 - 0x80) * 64 + (0x80 + c % 64 - 0x80) = c := by omega
        simp only [e7]
        have e8 : (0x10000 ≤ c && c < 0x110000) = true := by
          simp only [Bool.and_eq_true, decide_eq_true_eq]
          constructor <;> omega
        rw [if_pos e8]

theorem utf8DecodeAux_encode (cps : List Nat) (h : cps.all validScalar = true)
    (fuel : Nat) (hf : (utf8Encode cps).length ≤ fuel) :
    utf8DecodeAux fuel (utf8Encode cps) = some cps := by
  induction cps generalizing fuel with
  | nil => cases fuel <;> rfl
  | cons c cs ih =>
    simp only [List.all_cons, Bool.and_eq_true] at h
    have henc : utf8Encode (c :: cs) = utf8EncodeChar c ++ utf8Encode cs := by
      simp [utf8Encode]
    have hlen : 1 ≤ (utf8EncodeChar c).length := utf8EncodeChar_length_pos c
    have hone := utf8DecodeOne_encodeChar c h.1 (utf8Encode cs)
    rw [henc] at hf ⊢
    match hchar : utf8EncodeChar c with
    | [] =>
      rw [hchar] at hlen
      simp at hlen
    | b0 :: bs0 =>
      rw [hchar] at hf hone
      simp only [List.length_append, List.length_cons] at hf
      match fuel with
      | 0 => omega
      | fuel + 1 =>
        simp only [List.cons_append] at hone ⊢
        rw [utf8DecodeAux, hone]
        simp [ih h.2 fuel (by omega)]

/-- Round trip: strict UTF-8 decoding inverts encoding on sequences of
Unicode scalar values. -/
theorem utf8Decode_encode (cps : List Nat) (h : cps.all validScalar = true) :
    utf8Decode (utf8Encode cps) = some cps :=
  utf8DecodeAux_encode cps h (utf8Encode cps).length le_rfl

/-! ## RLP (the external `rlp` library)

`RLPItem` is the raw RLP data universe (byte strings and nested lists).
`encodeItemE` is `rlp.codec.encode_raw` (failing, like `length_prefix`,
when a length does not fit in 8 bytes); `parseItemF` is `consume_item`
(`consume_length_prefix` + `consume_payload`), with the library's
canonicity checks; all parse failures are `DecodingError`, represented by
a single error value.  The parser is given fuel to make it structurally
recursive; `2 * length + 1` fuel always suffices (each item consumes at
least one byte), and fuel exhaustion is just another `DecodingError`. -/

inductive RLPItem where
  | str (bs : List Nat)
  | list (items : List RLPItem)

mutual
def beqItem : RLPItem → RLPItem → Bool
  | .str a, .str b => a == b
  | .list a, .list b => beqItems a b
  | _, _ => false

def beqItems : List RLPItem → List RLPItem → Bool
  | [], [] => true
  | a :: as, b :: bs => beqItem a b && beqItems as bs
  | _, _ => false
end

mutual
theorem beqItem_iff : ∀ a b : RLPItem, beqItem a b = true ↔ a = b
  | .str a, .str b => by simp [beqItem]
  | .str _, .list _ => by simp [beqItem]
  | .list _, .str _ => by simp [beqItem]
  | .list a, .list b => by
    simp only [beqItem, RLPItem.list.injEq]
    exact beqItems_iff a b

theorem beqItems_iff : ∀ as bs : List RLPItem, beqItems as bs = true ↔ as = bs
  | [], [] => by simp [beqItems]
  | [], _ :: _ => by simp [beqItems]
  | _ :: _, [] => by simp [beqItems]
  | a :: as, b :: bs => by
    simp only [beqItems, Bool.and_eq_true, List.cons.injEq]
    exact and_congr (beqItem_iff a b) (beqItems_iff as bs)
end

instance : DecidableEq RLPItem := fun a b => decidable_of_iff _ (beqItem_iff a b)

instance {ε α : Type} [DecidableEq ε] [DecidableEq α] : DecidableEq (Except ε α) :=
  fun a b =>
  match a, b with
  | .ok x, .ok y =>
    if h : x = y then .isTrue (by rw [h]) else .isFalse (by simp [h])
  | .error x, .error y =>
    if h : x = y then .isTrue (by rw [h]) else .isFalse (by simp [h])
  | .ok _, .error _ => .isFalse (by simp)
  | .error _, .ok _ => .isFalse (by simp)

/-- `rlp.codec.length_prefix`: the length prefix of a string/list payload;
fails (`ValueError`) when the length needs more than 8 bytes. -/
def encLenE (offset len : Nat) : Except Unit (List Nat) :=
  if len < 56 then .ok [offset + len]
  else if len < 256 ^ 8 then .ok ((offset + 55 + (beBytes len).length) :: beBytes len)
  else .error ()

mutual
def encodeItemE : RLPItem → Except Unit (List Nat)
  | .str bs =>
    if bs.length = 1 ∧ bs.head! < 0x80 then .ok bs
    else
      match encLenE 0x80 bs.length with
      | .error e => .error e
      | .ok pre => .ok (pre ++ bs)
  | .list items =>
    match encodeItemsE items with
    | .error e => .error e
    | .ok payload =>
      match encLenE 0xc0 payload.length with
      | .error e => .error e
      | .ok pre => .ok (pre ++ payload)

def encodeItemsE : List RLPItem → Except Unit (List Nat)
  | [] => .ok []
  | it :: rest =>
    match encodeItemE it, encodeItemsE rest with
    | .ok a, .ok b => .ok (a ++ b)
    | .error e, _ => .error e
    | .ok _, .error e => .error e
end

mutual
/-- `consume_item` on the remaining input, returning the item and the rest.
Branches follow `consume_length_prefix`: single byte / short string (with
the single-byte canonicity check) / long string (leading-zero and
short-length canonicity checks) / short list / long list. -/
def parseItemF : Nat → List Nat → Except Unit (RLPItem × List Nat)
  | 0, _ => .error ()
  | _ + 1, [] => .error ()
  | fuel + 1, b0 :: r =>
    if b0 < 0x80 then .ok (.str [b0], r)
    else if b0 < 0xb8 then
      let l := b0 - 0x80
      if r.length < l then .error ()
      else if l = 1 ∧ (r.take l).head! < 0x80 then .error ()
      else .ok (.str (r.take l), r.drop l)
    else if b0 < 0xc0 then
      let ll := b0 - 0xb7
      if r.head? = some 0 then .error ()
      else if r.length < ll then .error ()
      else
        let l := beVal (r.take ll)
        if l < 56 then .error ()
        else if (r.drop ll).length < l then .error ()
        else .ok (.str ((r.drop ll).take l), (r.drop ll).drop l)
    else if b0 < 0xf8 then
      let l := b0 - 0xc0
      if r.length < l then .error ()
      else
        match parseItemsF fuel (r.take l) with
        | .error e => .error e
        | .ok items => .ok (.list items, r.drop l)
    else
      let ll := b0 - 0xf7
      if r.head? = some 0 then .error ()
      else if r.length < ll then .error ()
      else
        let l := beVal (r.take ll)
        if l < 56 then .error ()
        else if (r.drop ll).length < l then .error ()
        else
          match parseItemsF fuel ((r.drop ll).take l) with
          | .error e => .error e
          | .ok items => .ok (.list items, (r.drop ll).drop l)

/-- Parse a whole byte string as a sequence of consecutive items
(a list payload), requiring exact consumption. -/
def parseItemsF : Nat → List Nat → Except Unit (List RLPItem)
  | _, [] => .ok []
  | 0, _ :: _ => .error ()
  | fuel + 1, b0 :: r =>
    match parseItemF fuel (b0 :: r) with
    | .error e => .error e
    | .ok (it, rest) =>
      match parseItemsF fuel rest with
      | .error e => .error e
      | .ok items => .ok (it :: items)
end

theorem encodeItemE_length_pos (it : RLPItem) (bs : List Nat)
    (h : encodeItemE it = .ok bs) : 1 ≤ bs.length := by
  match it with
  | .str s =>
    rw [encodeItemE] at h
    split at h
    · rename_i hc
      simp only [Except.ok.injEq] at h
      subst h
      omega
    · split at h
      · exact absurd h (by simp)
      · rename_i pre hpre
        simp only [Except.ok.injEq] at h
        subst h
        rw [encLenE] at hpre
        split_ifs at hpre
        · simp only [Except.ok.injEq] at hpre
          subst hpre
          simp only [List.length_append, List.length_singleton]
          omega
        · simp only [Except.ok.injEq] at hpre
          subst hpre
          simp only [List.length_append, List.length_cons]
          omega
  | .list items =>
    rw [encodeItemE] at h
    split at h
    · exact absurd h (by simp)
    · rename_i payload hpl
      split at h
      · exact absurd h (by simp)
      · rename_i pre hpre
        simp only [Except.ok.injEq] at h
        subst h
        rw [encLenE] at hpre
        split_ifs at hpre
        · simp only [Except.ok.injEq] at hpre
          subst hpre
          simp only [List.length_append, List.length_singleton]
          omega
        · simp only [Except.ok.injEq] at hpre
          subst hpre
          simp only [List.length_append, List.length_cons]
          omega

mutual
theorem parse_encodeItem (it : RLPItem) (bs : List Nat) (h : encodeItemE it = .ok bs)
    (rest : List Nat) (fuel : Nat) (hf : 2 * bs.length ≤ fuel) :
    parseItemF fuel (bs ++ rest) = .ok (it, rest) := by
  match it with
  | .str s =>
    rw [encodeItemE] at h
    split at h
    · rename_i hc
      simp only [Except.ok.injEq] at h
      subst h
      match s, hc with
      | [b], hc =>
        simp only [List.head!, List.length_singleton, true_and] at hc
        match fuel with
        | 0 => simp at hf
        | fuel + 1 =>
          simp only [List.cons_append, List.nil_append]
          rw [parseItemF, if_pos hc]
    · rename_i hc
      split at h
      · exact absurd h (by simp)
      · rename_i pre hpre
        simp only [Except.ok.injEq] at h
        subst h
        rw [encLenE] at hpre
        split_ifs at hpre with h56 h64
        · -- short string
          simp only [Except.ok.injEq] at hpre
          subst hpre
          match fuel, hf with
          | fuel + 1, hf =>
            simp only [List.cons_append, List.nil_append]
            have e1 : ¬ (0x80 + s.length < 0x80) := by omega
            have e2 : 0x80 + s.length < 0xb8 := by omega
            rw [parseItemF, if_neg e1, if_pos e2]
            have e3 : 0x80 + s.length - 0x80 = s.length := by omega
            simp only [e3]
            have e4 : ¬ ((s ++ rest).length < s.length) := by
              simp only [List.length_append]
              omega
            rw [if_neg e4, List.take_left, List.drop_left, if_neg hc]
        · -- long string
          simp only [Except.ok.injEq] at hpre
          subst hpre
          have hll1 : 1 ≤ (beBytes s.length).length := by
            have := beBytes_len_le_iff s.length 0
            simp only [Nat.pow_zero, Nat.lt_one_iff] at this
            omega
          have hll8 : (beBytes s.length).length ≤ 8 :=
            (beBytes_len_le_iff s.length 8).mpr h64
          match fuel, hf with
          | fuel + 1, hf =>
            simp only [List.cons_append, List.nil_append, List.append_assoc]
            have e1 : ¬ (0x80 + 55 + (beBytes s.length).length < 0x80) := by omega
            have e2 : ¬ (0x80 + 55 + (beBytes s.length).length < 0xb8) := by omega
            have e3 : 0x80 + 55 + (beBytes s.length).length < 0xc0 := by omega
            rw [parseItemF, if_neg e1, if_neg e2, if_pos e3]
            have e4 : 0x80 + 55 + (beBytes s.length).length - 0xb7
                = (beBytes s.length).length := by omega
            simp only [e4]
            match hb : beBytes s.length, hll1 with
            | bb :: bbs, _ =>
              have hhne : (beBytes s.length).head? ≠ some 0 :=
                beBytes_head_ne_zero s.length (by omega)
              rw [hb] at hhne
              simp only [List.head?_cons, ne_eq, Option.some.injEq] at hhne
              have e5 : ((bb :: bbs) ++ (s ++ rest)).head? ≠ some 0 := by
                simp only [List.cons_append, List.head?_cons, ne_eq, Option.some.injEq]
                exact hhne
              rw [← hb]
              have e6 : ¬ ((beBytes s.length ++ (s ++ rest)).head? = some 0) := by
                rw [hb]
                exact e5
              rw [if_neg e6]
              have e7 : ¬ ((beBytes s.length ++ (s ++ rest)).length
                  < (beBytes s.length).length) := by
                simp only [List.length_append]
                omega
              rw [if_neg e7, List.take_left, List.drop_left, beVal_beBytes]
              have e8 : ¬ (s.length < 56) := by omega
              rw [if_neg e8]
              have e9 : ¬ ((s ++ rest).length < s.length) := by
                simp only [List.length_append]
                omega
              rw [if_neg e9, List.take_left, List.drop_left]
  | .list its =>
    rw [encodeItemE] at h
    split at h
    · exact absurd h (by simp)
    · rename_i payload hpl
      split at h
      · exact absurd h (by simp)
      · rename_i pre hpre
        simp only [Except.ok.injEq] at h
        subst h
        rw [encLenE] at hpre
        split_ifs at hpre with h56 h64
        · -- short list
          simp only [Except.ok.injEq] at hpre
          subst hpre
          match fuel, hf with
          | fuel + 1, hf =>
            simp only [List.cons_append, List.nil_append]
            have e1 : ¬ (0xc0 + payload.length < 0x80) := by omega
            have e2 : ¬ (0xc0 + payload.length < 0xb8) := by omega
            have e3 : ¬ (0xc0 + payload.length < 0xc0) := by omega
            have e4 : 0xc0 + payload.length < 0xf8 := by omega
            rw [parseItemF, if_neg e1, if_neg e2, if_neg e3, if_pos e4]
            have e5 : 0xc0 + payload.length - 0xc0 = payload.length := by omega
            simp only [e5]
            have e6 : ¬ ((payload ++ rest).length < payload.length) := by
              simp only [List.length_append]
              omega
            rw [if_neg e6, List.take_left, List.drop_left]
            have hrec := parse_encodeItems its payload hpl fuel (by
              simp only [List.length_append, List.length_cons, List.length_singleton] at hf
              omega)
            rw [hrec]
        · -- long list
          simp only [Except.ok.injEq] at hpre
          subst hpre
          have hll1 : 1 ≤ (beBytes payload.length).length := by
            have := beBytes_len_le_iff payload.length 0
            simp only [Nat.pow_zero, Nat.lt_one_iff] at this
            omega
          have hll8 : (beBytes payload.length).length ≤ 8 :=
            (beBytes_len_le_iff payload.length 8).mpr h64
          match fuel, hf with
          | fuel + 1, hf =>
            simp only [List.cons_append, List.nil_append, List.append_assoc]
            have e1 : ¬ (0xc0 + 55 + (beBytes payload.length).length < 0x80) := by omega
            have e2 : ¬ (0xc0 + 55 + (beBytes payload.length).length < 0xb8) := by omega
            have e3 : ¬ (0xc0 + 55 + (beBytes payload.length).length < 0xc0) := by omega
            have e4 : ¬ (0xc0 + 55 + (beBytes payload.length).length < 0xf8) := by omega
            rw [parseItemF, if_neg e1, if_neg e2, if_neg e3, if_neg e4]
            have e5 : 0xc0 + 55 + (beBytes payload.length).length - 0xf7
                = (beBytes payload.length).length := by omega
            simp only [e5]
            have hhne : (beBytes payload.length).head? ≠ some 0 :=
              beBytes_head_ne_zero payload.length (by omega)
            have e6 : ¬ ((beBytes payload.length ++ (payload ++ rest)).head? = some 0) := by
              match hb : beBytes payload.length, hll1 with
              | bb :: bbs, _ =>
                rw [hb] at hhne
                simp only [List.head?_cons, ne_eq, Option.some.injEq] at hhne
                simp only [List.cons_append, List.head?_cons, ne_eq, Option.some.injEq]
                exact hhne
            rw [if_neg e6]
            have e7 : ¬ ((beBytes payload.length ++ (payload ++ rest)).length
                < (beBytes payload.length).length) := by
              simp only [List.length_append]
              omega
            rw [if_neg e7, List.take_left, List.drop_left, beVal_beBytes]
            have e8 : ¬ (payload.length < 56) := by omega
            rw [if_neg e8]
            have e9 : ¬ ((payload ++ rest).length < payload.length) := by
              simp only [List.length_append]
              omega
            rw [if_neg e9, List.take_left, List.drop_left]
            have hrec := parse_encodeItems its payload hpl fuel (by
              simp only [List.length_append, List.length_cons, List.length_singleton] at hf
              omega)
            rw [hrec]
termination_by sizeOf it

theorem parse_encodeItems (its : List RLPItem) (bs : List Nat)
    (h : encodeItemsE its = .ok bs) (fuel : Nat) (hf : 2 * bs.length + 1 ≤ fuel) :
    parseItemsF fuel bs = .ok its := by
  match its with
  | [] =>
    rw [encodeItemsE] at h
    simp only [Except.ok.injEq] at h
    subst h
    match fuel with
    | 0 => rfl
    | _ + 1 => rfl
  | it :: its1 =>
    rw [encodeItemsE] at h
    split at h
    · rename_i a b ha hb
      simp only [Except.ok.injEq] at h
      subst h
      have ha1 : 1 ≤ a.length := encodeItemE_length_pos it a ha
      match hae : a, ha1 with
      | a0 :: a1, _ =>
        match fuel, hf with
        | fuel + 1, hf =>
          simp only [List.length_append, List.length_cons] at hf
          simp only [List.cons_append]
          rw [parseItemsF]
          have h1 := parse_encodeItem it (a0 :: a1) ha b fuel (by simp; omega)
          simp only [List.cons_append] at h1
          rw [h1]
          have h2 := parse_encodeItems its1 b hb fuel (by omega)
          simp [h2]
    · exact absurd h (by simp)
    · exact absurd h (by simp)
termination_by sizeOf its
end

/-! ## Sedes (`rlp.sedes`): typed serialization on top of raw RLP

`Value` is the universe of Python values the repository's schemas use:
non-negative integers (`big_endian_int` fields), text strings (sequences of
code points), byte strings, and (nested) sequences.  Python distinguishes
`list` from `tuple` — `is_sequence` accepts either on the serialization
side, `List.deserialize`/`CountableList.deserialize` return tuples, and
`[x] == (x,)` is `False` — so `Value` keeps both constructors.  `Sedes`
covers exactly the sedes objects appearing in the source: `big_endian_int`,
`text`, `binary`, `List(elements, strict)` and `CountableList(element)`.

Serialization failures (`SerializationError`) carry no claim-relevant
structure and are a single error value.  Deserialization failures keep the
one distinction the code depends on: `ListDeserializationError` (raised by
`List`/`CountableList` for non-sequences, strict length mismatches, and —
wrapping — any element failure) versus other `DeserializationError`s.
Neither is a subclass of `DecodingError`. -/

inductive Value where
  | vint (n : Nat)
  | vtext (cps : List Nat)
  | vbytes (bs : List Nat)
  | vlist (vs : List Value)
  | vtuple (vs : List Value)

inductive Sedes where
  | bigEndianInt
  | text
  | binary
  | sList (elems : List Sedes) (strict : Bool)
  | countableList (elem : Sedes)

mutual
/-- Structural equality on values.  This is also Python `==` at these
types: a `list` and a `tuple` are never `==` (`[1] == (1,)` is `False`),
and same-kind sequences compare elementwise. -/
def beqValue : Value → Value → Bool
  | .vint a, .vint b => a == b
  | .vtext a, .vtext b => a == b
  | .vbytes a, .vbytes b => a == b
  | .vlist a, .vlist b => beqValues a b
  | .vtuple a, .vtuple b => beqValues a b
  | _, _ => false

def beqValues : List Value → List Value → Bool
  | [], [] => true
  | a :: as, b :: bs => beqValue a b && beqValues as bs
  | _, _ => false
end

mutual
theorem beqValue_iff : ∀ a b : Value, beqValue a b = true ↔ a = b
  | .vint _, .vint _ => by simp [beqValue]
  | .vint _, .vtext _ => by simp [beqValue]
  | .vint _, .vbytes _ => by simp [beqValue]
  | .vint _, .vlist _ => by simp [beqValue]
  | .vint _, .vtuple _ => by simp [beqValue]
  | .vtext _, .vint _ => by simp [beqValue]
  | .vtext _, .vtext _ => by simp [beqValue]
  | .vtext _, .vbytes _ => by simp [beqValue]
  | .vtext _, .vlist _ => by simp [beqValue]
  | .vtext _, .vtuple _ => by simp [beqValue]
  | .vbytes _, .vint _ => by simp [beqValue]
  | .vbytes _, .vtext _ => by simp [beqValue]
  | .vbytes _, .vbytes _ => by simp [beqValue]
  | .vbytes _, .vlist _ => by simp [beqValue]
  | .vbytes _, .vtuple _ => by simp [beqValue]
  | .vlist _, .vint _ => by simp [beqValue]
  | .vlist _, .vtext _ => by simp [beqValue]
  | .vlist _, .vbytes _ => by simp [beqValue]
  | .vlist _, .vtuple _ => by simp [beqValue]
  | .vlist a, .vlist b => by
    simp only [beqValue, Value.vlist.injEq]
    exact beqValues_iff a b
  | .vtuple _, .vint _ => by simp [beqValue]
  | .vtuple _, .vtext _ => by simp [beqValue]
  | .vtuple _, .vbytes _ => by simp [beqValue]
  | .vtuple _, .vlist _ => by simp [beqValue]
  | .vtuple a, .vtuple b => by
    simp only [beqValue, Value.vtuple.injEq]
    exact beqValues_iff a b

theorem beqValues_iff : ∀ as bs : List Value, beqValues as bs = true ↔ as = bs
  | [], [] => by simp [beqValues]
  | [], _ :: _ => by simp [beqValues]
  | _ :: _, [] => by simp [beqValues]
  | a :: as, b :: bs => by
    simp only [beqValues, Bool.and_eq_true, List.cons.injEq]
    exact and_congr (beqValue_iff a b) (beqValues_iff as bs)
end

instance : DecidableEq Value := fun a b => decidable_of_iff _ (beqValue_iff a b)

mutual
def beqSedes : Sedes → Sedes → Bool
  | .bigEndianInt, .bigEndianInt => true
  | .text, .text => true
  | .binary, .binary => true
  | .sList a sa, .sList b sb => beqSedesList a b && sa == sb
  | .countableList a, .countableList b => beqSedes a b
  | _, _ => false

def beqSedesList : List Sedes → List Sedes → Bool
  | [], [] => true
  | a :: as, b :: bs => beqSedes a b && beqSedesList as bs
  | _, _ => false
end

mutual
theorem beqSedes_iff : ∀ a b : Sedes, beqSedes a b = true ↔ a = b
  | .bigEndianInt, b => by cases b <;> simp [beqSedes]
  | .text, b => by cases b <;> simp [beqSedes]
  | .binary, b => by cases b <;> simp [beqSedes]
  | .sList a sa, .bigEndianInt => by simp [beqSedes]
  | .sList a sa, .text => by simp [beqSedes]
  | .sList a sa, .binary => by simp [beqSedes]
  | .sList a sa, .sList b sb => by
    simp only [beqSedes, Bool.and_eq_true, beq_iff_eq, Sedes.sList.injEq]
    exact and_congr (beqSedesList_iff a b) Iff.rfl
  | .sList a sa, .countableList _ => by simp [beqSedes]
  | .countableList a, .bigEndianInt => by simp [beqSedes]
  | .countableList a, .text => by simp [beqSedes]
  | .countableList a, .binary => by simp [beqSedes]
  | .countableList a, .sList _ _ => by simp [beqSedes]
  | .countableList a, .countableList b => by
    simp only [beqSedes, Sedes.countableList.injEq]
    exact beqSedes_iff a b

theorem beqSedesList_iff : ∀ as bs : List Sedes, beqSedesList as bs = true ↔ as = bs
  | [], [] => by simp [beqSedesList]
  | [], _ :: _ => by simp [beqSedesList]
  | _ :: _, [] => by simp [beqSedesList]
  | a :: as, b :: bs => by
    simp only [beqSedesList, Bool.and_eq_true, List.cons.injEq]
    exact and_congr (beqSedes_iff a b) (beqSedesList_iff as bs)
end

instance : DecidableEq Sedes := fun a b => decidable_of_iff _ (beqSedes_iff a b)

/-- The two kinds of deserialization failure the code distinguishes:
`ListDeserializationError` (`listShape`) and any other
`DeserializationError` (`plain`). -/
inductive DeserErr where
  | listShape
  | plain
deriving DecidableEq, Repr

mutual
/-- `sedes.serialize(value)`: `big_endian_int` produces the minimal
big-endian bytes (`0` ↦ empty); `text` UTF-8-encodes, failing on lone
surrogates as Python's `str.encode` does; `binary` passes bytes through;
`List.serialize` requires the value to be a sequence (`is_sequence`
accepts `list` and `tuple` alike) that is not longer than the sedes list
(exactly as long when strict) and zips; `CountableList` serializes each
element.  A value of the wrong Python type fails with
`SerializationError`. -/
def serSedes : Sedes → Value → Except Unit RLPItem
  | .bigEndianInt, .vint n => .ok (.str (beBytes n))
  | .text, .vtext cps =>
    if cps.all validScalar then .ok (.str (utf8Encode cps)) else .error ()
  | .binary, .vbytes bs => .ok (.str bs)
  | .sList elems strict, .vlist vs =>
    if (strict && vs.length != elems.length) || elems.length < vs.length then .error ()
    else
      match serZip elems vs with
      | .error e => .error e
      | .ok items => .ok (.list items)
  | .sList elems strict, .vtuple vs =>
    if (strict && vs.length != elems.length) || elems.length < vs.length then .error ()
    else
      match serZip elems vs with
      | .error e => .error e
      | .ok items => .ok (.list items)
  | .countableList e, .vlist vs =>
    match serAll e vs with
    | .error e => .error e
    | .ok items => .ok (.list items)
  | .countableList e, .vtuple vs =>
    match serAll e vs with
    | .error e => .error e
    | .ok items => .ok (.list items)
  | _, _ => .error ()

/-- `zip(obj, self)` serialization of a `List` sedes: one output per value,
truncating at the shorter list (the length guard has already run). -/
def serZip : List Sedes → List Value → Except Unit (List RLPItem)
  | _, [] => .ok []
  | [], _ :: _ => .ok []
  | s :: ss, v :: vs =>
    match serSedes s v, serZip ss vs with
    | .ok item, .ok items => .ok (item :: items)
    | .error e, _ => .error e
    | .ok _, .error e => .error e

def serAll : Sedes → List Value → Except Unit (List RLPItem)
  | _, [] => .ok []
  | e, v :: vs =>
    match serSedes e v, serAll e vs with
    | .ok item, .ok items => .ok (item :: items)
    | .error er, _ => .error er
    | .ok _, .error er => .error er
end

mutual
/-- `sedes.deserialize(item)`: `big_endian_int` rejects leading zero bytes
(non-minimal) and non-byte-string items; `text` strictly UTF-8-decodes;
`binary` rejects non-byte-strings; `List` rejects non-sequences and (when
strict) length mismatches with `ListDeserializationError` and zips
(`zip(serial, self)`, truncating at the shorter), wrapping any element
failure in `ListDeserializationError`; `CountableList` likewise.  Both
list sedes return `tuple(...)` of the deserialized elements — a `tuple`,
never a `list`. -/
def deserSedes : Sedes → RLPItem → Except DeserErr Value
  | .bigEndianInt, .str bs =>
    if bs.head? = some 0 then .error .plain else .ok (.vint (beVal bs))
  | .bigEndianInt, .list _ => .error .plain
  | .text, .str bs =>
    match utf8Decode bs with
    | some cps => .ok (.vtext cps)
    | none => .error .plain
  | .text, .list _ => .error .plain
  | .binary, .str bs => .ok (.vbytes bs)
  | .binary, .list _ => .error .plain
  | .sList elems strict, .list items =>
    if strict && items.length != elems.length then .error .listShape
    else
      match deserZip elems items with
      | .error _ => .error .listShape
      | .ok vs => .ok (.vtuple vs)
  | .sList _ _, .str _ => .error .listShape
  | .countableList e, .list items =>
    match deserAll e items with
    | .error _ => .error .listShape
    | .ok vs => .ok (.vtuple vs)
  | .countableList _, .str _ => .error .listShape

def deserZip : List Sedes → List RLPItem → Except DeserErr (List Value)
  | _, [] => .ok []
  | [], _ :: _ => .ok []
  | s :: ss, item :: items =>
    match deserSedes s item, deserZip ss items with
    | .ok v, .ok vs => .ok (v :: vs)
    | .error e, _ => .error e
    | .ok _, .error e => .error e

def deserAll : Sedes → List RLPItem → Except DeserErr (List Value)
  | _, [] => .ok []
  | e, item :: items =>
    match deserSedes e item, deserAll e items with
    | .ok v, .ok vs => .ok (v :: vs)
    | .error er, _ => .error er
    | .ok _, .error er => .error er
end

mutual
/-- The value a round trip through the sedes layer realizes: every
sequence — `list` or `tuple` on the way in — comes back from
`deserialize` as a `tuple` of the (recursively tuplified) elements;
non-sequence values come back unchanged. -/
def tuplify : Value → Value
  | .vlist vs => .vtuple (tuplifyList vs)
  | .vtuple vs => .vtuple (tuplifyList vs)
  | v => v

def tuplifyList : List Value → List Value
  | [] => []
  | v :: vs => tuplify v :: tuplifyList vs
end

theorem tuplifyList_eq_map (vs : List Value) : tuplifyList vs = vs.map tuplify := by
  induction vs with
  | nil => rfl
  | cons v vs1 ih => rw [tuplifyList, List.map_cons, ih]

theorem beBytes_head_ne_zero' (n : Nat) : ¬ ((beBytes n).head? = some 0) := by
  by_cases h0 : n = 0
  · subst h0
    simp [beBytes_zero]
  · exact beBytes_head_ne_zero n h0

theorem serZip_length (ss : List Sedes) (vs : List Value) (items : List RLPItem)
    (hle : vs.length ≤ ss.length) (h : serZip ss vs = .ok items) :
    items.length = vs.length := by
  induction ss generalizing vs items with
  | nil =>
    match vs, hle with
    | [], _ =>
      rw [serZip] at h
      simp only [Except.ok.injEq] at h
      subst h
      rfl
  | cons s ss1 ih =>
    match vs with
    | [] =>
      rw [serZip] at h
      simp only [Except.ok.injEq] at h
      subst h
      rfl
    | v :: vs1 =>
      rw [serZip] at h
      split at h
      · rename_i item items1 hitem hitems
        simp only [Except.ok.injEq] at h
        subst h
        simp only [List.length_cons] at hle ⊢
        rw [ih vs1 items1 (by omega) hitems]
      · exact absurd h (by simp)
      · exact absurd h (by simp)

mutual
/-- Deserialization inverts serialization wherever serialization succeeds,
up to the sequence realization: every sequence comes back as a `tuple`
(`tuplify v`), never as a `list`. -/
theorem deser_serSedes (v : Value) (s : Sedes) (item : RLPItem)
    (h : serSedes s v = .ok item) : deserSedes s item = .ok (tuplify v) := by
  match v, s with
  | .vint n, s =>
    match s with
    | .bigEndianInt =>
      rw [serSedes] at h
      simp only [Except.ok.injEq] at h
      subst h
      show deserSedes .bigEndianInt (.str (beBytes n)) = .ok (.vint n)
      rw [deserSedes, if_neg (beBytes_head_ne_zero' n), beVal_beBytes]
    | .text => simp [serSedes] at h
    | .binary => simp [serSedes] at h
    | .sList _ _ => simp [serSedes] at h
    | .countableList _ => simp [serSedes] at h
  | .vtext cps, s =>
    match s with
    | .text =>
      rw [serSedes] at h
      split at h
      · rename_i hvalid
        simp only [Except.ok.injEq] at h
        subst h
        show deserSedes .text (.str (utf8Encode cps)) = .ok (.vtext cps)
        rw [deserSedes, utf8Decode_encode cps hvalid]
      · exact absurd h (by simp)
    | .bigEndianInt => simp [serSedes] at h
    | .binary => simp [serSedes] at h
    | .sList _ _ => simp [serSedes] at h
    | .countableList _ => simp [serSedes] at h
  | .vbytes bs, s =>
    match s with
    | .binary =>
      rw [serSedes] at h
      simp only [Except.ok.injEq] at h
      subst h
      show deserSedes .binary (.str bs) = .ok (.vbytes bs)
      rw [deserSedes]
    | .bigEndianInt => simp [serSedes] at h
    | .text => simp [serSedes] at h
    | .sList _ _ => simp [serSedes] at h
    | .countableList _ => simp [serSedes] at h
  | .vlist vs, s =>
    match s with
    | .sList elems strict =>
      rw [serSedes] at h
      split at h
      · exact absurd h (by simp)
      · rename_i hguard
        split at h
        · exact absurd h (by simp)
        · rename_i items hzip
          simp only [Except.ok.injEq] at h
          subst h
          have hlen : items.length = vs.length := by
            apply serZip_length elems vs items _ hzip
            simp only [Bool.or_eq_true, Bool.and_eq_true, bne_iff_ne, ne_eq,
              decide_eq_true_eq, not_or, not_lt] at hguard
            exact hguard.2
          simp only [Bool.or_eq_true, Bool.and_eq_true, bne_iff_ne, ne_eq,
            decide_eq_true_eq, not_or, not_and, Decidable.not_not, not_lt] at hguard
          show deserSedes (.sList elems strict) (.list items)
            = .ok (.vtuple (tuplifyList vs))
          rw [deserSedes]
          have hguard2 : ¬ (strict && items.length != elems.length) = true := by
            simp only [Bool.and_eq_true, bne_iff_ne, ne_eq, not_and, Decidable.not_not]
            intro hs
            rw [hlen]
            exact hguard.1 hs
          rw [if_neg hguard2, deser_serZip vs elems items hguard.2 hzip]
    | .countableList e =>
      rw [serSedes] at h
      split at h
      · exact absurd h (by simp)
      · rename_i items hall
        simp only [Except.ok.injEq] at h
        subst h
        show deserSedes (.countableList e) (.list items)
          = .ok (.vtuple (tuplifyList vs))
        rw [deserSedes, deser_serAll vs e items hall]
    | .bigEndianInt => simp [serSedes] at h
    | .text => simp [serSedes] at h
    | .binary => simp [serSedes] at h
  | .vtuple vs, s =>
    match s with
    | .sList elems strict =>
      rw [serSedes] at h
      split at h
      · exact absurd h (by simp)
      · rename_i hguard
        split at h
        · exact absurd h (by simp)
        · rename_i items hzip
          simp only [Except.ok.injEq] at h
          subst h
          have hlen : items.length = vs.length := by
            apply serZip_length elems vs items _ hzip
            simp only [Bool.or_eq_true, Bool.and_eq_true, bne_iff_ne, ne_eq,
              decide_eq_true_eq, not_or, not_lt] at hguard
            exact hguard.2
          simp only [Bool.or_eq_true, Bool.and_eq_true, bne_iff_ne, ne_eq,
            decide_eq_true_eq, not_or, not_and, Decidable.not_not, not_lt] at hguard
          show deserSedes (.sList elems strict) (.list items)
            = .ok (.vtuple (tuplifyList vs))
          rw [deserSedes]
          have hguard2 : ¬ (strict && items.length != elems.length) = true := by
            simp only [Bool.and_eq_true, bne_iff_ne, ne_eq, not_and, Decidable.not_not]
            intro hs
            rw [hlen]
            exact hguard.1 hs
          rw [if_neg hguard2, deser_serZip vs elems items hguard.2 hzip]
    | .countableList e =>
      rw [serSedes] at h
      split at h
      · exact absurd h (by simp)
      · rename_i items hall
        simp only [Except.ok.injEq] at h
        subst h
        show deserSedes (.countableList e) (.list items)
          = .ok (.vtuple (tuplifyList vs))
        rw [deserSedes, deser_serAll vs e items hall]
    | .bigEndianInt => simp [serSedes] at h
    | .text => simp [serSedes] at h
    | .binary => simp [serSedes] at h

theorem deser_serZip (vs : List Value) (ss : List Sedes) (items : List RLPItem)
    (hle : vs.length ≤ ss.length) (h : serZip ss vs = .ok items) :
    deserZip ss items = .ok (tuplifyList vs) := by
  match vs, ss with
  | [], ss =>
    match ss with
    | [] =>
      rw [serZip] at h
      simp only [Except.ok.injEq] at h
      subst h
      rfl
    | _ :: _ =>
      rw [serZip] at h
      simp only [Except.ok.injEq] at h
      subst h
      rfl
  | v :: vs1, ss =>
    match ss with
    | [] => simp at hle
    | s :: ss1 =>
      rw [serZip] at h
      split at h
      · rename_i item items1 hitem hitems
        simp only [Except.ok.injEq] at h
        subst h
        simp only [List.length_cons] at hle
        show deserZip (s :: ss1) (item :: items1)
          = .ok (tuplify v :: tuplifyList vs1)
        rw [deserZip, deser_serSedes v s item hitem,
          deser_serZip vs1 ss1 items1 (by omega) hitems]
      · exact absurd h (by simp)
      · exact absurd h (by simp)

theorem deser_serAll (vs : List Value) (e : Sedes) (items : List RLPItem)
    (h : serAll e vs = .ok items) : deserAll e items = .ok (tuplifyList vs) := by
  match vs with
  | [] =>
    rw [serAll] at h
    simp only [Except.ok.injEq] at h
    subst h
    rfl
  | v :: vs1 =>
    rw [serAll] at h
    split at h
    · rename_i item items1 hitem hitems
      simp only [Except.ok.injEq] at h
      subst h
      show deserAll e (item :: items1) = .ok (tuplify v :: tuplifyList vs1)
      rw [deserAll, deser_serSedes v e item hitem, deser_serAll vs1 e items1 hitems]
    · exact absurd h (by simp)
    · exact absurd h (by simp)
end

/-! ## `rlp.encode` / `rlp.decode` with a sedes -/

/-- Error taxonomy of `rlp.decode(data, sedes=...)` as seen by callers:
structural parse failures are `DecodingError` (`decoding`, including the
superfluous-trailing-bytes check that runs before deserialization);
deserialization failures propagate unwrapped and keep their own class
(`deserList` = `ListDeserializationError`, `deserOther` = any other
`DeserializationError`).  `DeserializationError` is not a subclass of
`DecodingError`. -/
inductive RlpErr where
  | decoding
  | deserList
  | deserOther
deriving DecidableEq, Repr

/-- Python-level errors of the command layer.  `encodingError` is
`rlp.exceptions.EncodingError`, a class distinct from `ValueError`. -/
inductive PyErr where
  | valueError
  | serializationError
  | encodingError
  | malformedMessage
  | listDeserializationError
  | deserializationError
  | decodingError
  | nameError
deriving DecidableEq, Repr

/-- `rlp.encode(value, sedes=s)`: serialize, then `encode_raw`.
Serialization failures are `SerializationError`; the over-8-byte length
failure of `length_prefix` raises `ValueError`, which `encode_raw` catches
and re-raises as `rlp.exceptions.EncodingError('Item too big to encode')` —
so the failure callers see is `EncodingError`. -/
def rlpEncodeS (s : Sedes) (v : Value) : Except PyErr (List Nat) :=
  match serSedes s v with
  | .error _ => .error .serializationError
  | .ok item =>
    match encodeItemE item with
    | .error _ => .error .encodingError
    | .ok bs => .ok bs

/-- `rlp.decode(data, sedes=s)` (with the default `strict=True`): parse one
item, reject superfluous trailing bytes, then deserialize.  The parser gets
`2·length + 1` fuel, which suffices for every parseable input (each item
consumes at least one byte of input). -/
def rlpDecodeS (s : Sedes) (bs : List Nat) : Except RlpErr Value :=
  match parseItemF (2 * bs.length + 1) bs with
  | .error _ => .error .decoding
  | .ok (item, rest) =>
    match rest with
    | _ :: _ => .error .decoding
    | [] =>
      match deserSedes s item with
      | .error .listShape => .error .deserList
      | .error .plain => .error .deserOther
      | .ok v => .ok v

/-- Round trip of the full codec: whenever encoding succeeds,
`rlp.decode(rlp.encode(v, s), s)` returns `v` with every sequence realized
as a tuple (`tuplify v`). -/
theorem rlpDecodeS_rlpEncodeS (s : Sedes) (v : Value) (bs : List Nat)
    (h : rlpEncodeS s v = .ok bs) : rlpDecodeS s bs = .ok (tuplify v) := by
  rw [rlpEncodeS] at h
  split at h
  · exact absurd h (by simp)
  · rename_i item hser
    split at h
    · exact absurd h (by simp)
    · rename_i bs1 henc
      simp only [Except.ok.injEq] at h
      subst h
      have hparse := parse_encodeItem item bs1 henc [] (2 * bs1.length + 1) (by omega)
      rw [List.append_nil] at hparse
      rw [rlpDecodeS, hparse]
      simp [deser_serSedes v s item hser]

/-- Deserializing with a `List` or `CountableList` sedes always yields a
tuple value. -/
theorem deserSedes_list_shape (s : Sedes) (item : RLPItem) (v : Value)
    (h : deserSedes s item = .ok v)
    (hs : (∃ elems strict, s = .sList elems strict) ∨ ∃ e, s = .countableList e) :
    ∃ vs, v = .vtuple vs := by
  rcases hs with ⟨elems, strict, rfl⟩ | ⟨e, rfl⟩
  · match item with
    | .str _ => simp [deserSedes] at h
    | .list items =>
      rw [deserSedes] at h
      split at h
      · exact absurd h (by simp)
      · split at h
        · exact absurd h (by simp)
        · rename_i vs hvs
          simp only [Except.ok.injEq] at h
          exact ⟨vs, h.symm⟩
  · match item with
    | .str _ => simp [deserSedes] at h
    | .list items =>
      rw [deserSedes] at h
      split at h
      · exact absurd h (by simp)
      · rename_i vs hvs
        simp only [Except.ok.injEq] at h
        exact ⟨vs, h.symm⟩

/-! ## The command layer (`p2p/protocol.py`)

Python dicts are modelled as association lists in insertion order with
unique keys (a Python `dict` cannot hold a key twice); `Payload` is the
`PayloadType` union restricted to the shapes the code handles (a field
mapping or a sequence of values). -/

/-- `Command.structure`: either an ordered field list (`List[Tuple[str, Any]]`)
or a `sedes.CountableList` (homogeneous-list mode). -/
inductive Structure where
  | fields (fs : List (String × Sedes))
  | countable (elem : Sedes)
deriving DecidableEq

/-- A payload: a field mapping, a Python `list` of values, or a Python
`tuple` of values (the `PayloadType` union has both sequence kinds, and
`decode_payload` in homogeneous-list mode returns the tuple produced by
`CountableList.deserialize`). -/
inductive Payload where
  | dict (entries : List (String × Value))
  | pylist (vs : List Value)
  | pytuple (vs : List Value)
deriving DecidableEq

/-- A `Command` subclass as declared: its class attributes.  `struc` is the
`structure` attribute (a Lean keyword); the class-level defaults are those
of the `Command` base class: `decode_strict = True`, `structure = []`.
`compressionOverridden` records whether the class overrides
`compress_payload`/`decompress_payload` to the identity (only `Hello`
does). -/
structure CmdSchema where
  _cmd_id : Nat
  decode_strict : Bool := true
  struc : Structure := .fields []
  compressionOverridden : Bool := false
deriving DecidableEq

/-- A bound command produced by `get_command_class`: the generated subclass
carrying `_cmd_id_offset`, `_snappy_support`, the final `cmd_id`, and
`cmd_type` (the original schema class). -/
structure BoundCmd where
  cmd_type : CmdSchema
  _cmd_id_offset : Nat
  _snappy_support : Bool
  cmd_id : Nat
deriving DecidableEq

/-- The key check of `encode_payload`:
`sorted(data.keys()) != sorted(expected_keys)`.  Two lists of strings have
equal sorted forms exactly when they are permutations of each other
(sorting is a function of the underlying multiset), so the check is
modelled as a permutation test. -/
def keysMatch (ks names : List String) : Bool := ks.isPerm names

/-- `data[name]`: total here; the key check guarantees the key is present
on every path on which this is evaluated. -/
def lookupVal (entries : List (String × Value)) (n : String) : Value :=
  (entries.lookup n).getD (.vint 0)

/-- `Command.encode_payload` (protocol.py lines 83-99): a dict payload is
checked against the schema's field names and reordered into declaration
order; the encoder is the schema's `CountableList` in homogeneous-list mode
and `sedes.List(types)` (strict, the default) otherwise. -/
def encode_payload (cls : CmdSchema) (data : Payload) : Except PyErr (List Nat) :=
  match data with
  | .dict entries =>
    match cls.struc with
    | .countable _ => .error .valueError
    | .fields fs =>
      if keysMatch (entries.map Prod.fst) (fs.map Prod.fst) then
        rlpEncodeS (.sList (fs.map Prod.snd) true)
          (.vlist (fs.map fun nf => lookupVal entries nf.1))
      else .error .valueError
  | .pylist vs =>
    match cls.struc with
    | .countable e => rlpEncodeS (.countableList e) (.vlist vs)
    | .fields fs => rlpEncodeS (.sList (fs.map Prod.snd) true) (.vlist vs)
  | .pytuple vs =>
    match cls.struc with
    | .countable e => rlpEncodeS (.countableList e) (.vtuple vs)
    | .fields fs => rlpEncodeS (.sList (fs.map Prod.snd) true) (.vtuple vs)

/-- Extract the element sequence of a deserialized list-sedes value (a
tuple, by `deserSedes_list_shape`; the other branches are unreachable on
every path on which this is used). -/
def asVList : Value → List Value
  | .vtuple vs => vs
  | .vlist vs => vs
  | v => [v]

def zipFields (fs : List (String × Sedes)) (vs : List Value) : List (String × Value) :=
  (fs.zip vs).map fun p => (p.1.1, p.2)

/-- `Command.decode_payload` (protocol.py lines 101-119): decode with the
schema's `CountableList`, or with `sedes.List(types, strict=decode_strict)`;
only `rlp.DecodingError` is caught and re-raised as `MalformedMessage` —
deserialization errors (in particular `ListDeserializationError`) propagate
unchanged; a successful homogeneous-list decode returns the deserialized
data unchanged — the tuple that `CountableList.deserialize` produced — and
a successful field-mode decode is zipped with the structure into a dict. -/
def decode_payload (cls : CmdSchema) (rlp_data : List Nat) : Except PyErr Payload :=
  match cls.struc with
  | .countable e =>
    match rlpDecodeS (.countableList e) rlp_data with
    | .error .decoding => .error .malformedMessage
    | .error .deserList => .error .listDeserializationError
    | .error .deserOther => .error .deserializationError
    | .ok v => .ok (.pytuple (asVList v))
  | .fields fs =>
    match rlpDecodeS (.sList (fs.map Prod.snd) cls.decode_strict) rlp_data with
    | .error .decoding => .error .malformedMessage
    | .error .deserList => .error .listDeserializationError
    | .error .deserOther => .error .deserializationError
    | .ok v => .ok (.dict (zipFields fs (asVList v)))

/-- `Command.compress_payload` (lines 140-146): snappy only when the bound
command's `_snappy_support` is set; `Hello` overrides the method to the
identity regardless of the flag.  The external snappy routine is the
parameter `sc`. -/
def compress_payload (cmd : BoundCmd) (sc : List Nat → List Nat)
    (raw_payload : List Nat) : List Nat :=
  if cmd.cmd_type.compressionOverridden then raw_payload
  else if cmd._snappy_support then sc raw_payload
  else raw_payload

/-- `Command.decompress_payload` (lines 132-138), dually with `sd`. -/
def decompress_payload (cmd : BoundCmd) (sd : List Nat → List Nat)
    (raw_payload : List Nat) : List Nat :=
  if cmd.cmd_type.compressionOverridden then raw_payload
  else if cmd._snappy_support then sd raw_payload
  else raw_payload

/-- `NULL_BYTE` from `eth.constants`. -/
def NULL_BYTE : Nat := 0

/-- `_pad_to_16_byte_boundary` (lines 275-280). -/
def _pad_to_16_byte_boundary (data : List Nat) : List Nat :=
  let remainder := data.length % 16
  if remainder ≠ 0 then data ++ List.replicate (16 - remainder) NULL_BYTE else data

/-- The frame-building tail of `Command.encode` (lines 153-168), given the
final command id and the compressed payload:
`enc_cmd_id = rlp.encode(cmd_id, sedes=big_endian_int)`, the 3-byte-size
check via `bit_length`, the header from `struct.pack('>I', frame_size)[1:]`
plus the fixed `b'\xc2\x80\x80'`, both parts padded to 16 bytes. -/
def frameEncode (cmd_id : Nat) (compressed_payload : List Nat) :
    Except PyErr (List Nat × List Nat) :=
  match rlpEncodeS .bigEndianInt (.vint cmd_id) with
  | .error e => .error e
  | .ok enc_cmd_id =>
    let frame_size := enc_cmd_id.length + compressed_payload.length
    if bit_length frame_size > 24 then .error .valueError
    else
      let header := (beFixed 4 frame_size).drop 1 ++ [0xc2, 0x80, 0x80]
      let header := _pad_to_16_byte_boundary header
      let body := _pad_to_16_byte_boundary (enc_cmd_id ++ compressed_payload)
      .ok (header, body)

/-- `Command.encode` (lines 148-168). -/
def encode (cmd : BoundCmd) (sc : List Nat → List Nat) (data : Payload) :
    Except PyErr (List Nat × List Nat) :=
  match encode_payload cmd.cmd_type data with
  | .error e => .error e
  | .ok encoded_payload => frameEncode cmd.cmd_id (compress_payload cmd sc encoded_payload)

/-- Modelled from the spec: `get_devp2p_cmd_id` lives in `p2p._utils`, which
is not part of the given sources.  Per the spec, it reads the leading
command-id byte, decoded via the structured-encoding rules for a big-endian
unsigned integer — i.e. `rlp.decode(data[:1], sedes=big_endian_int)`, whose
errors propagate out of `Command.decode` unchanged. -/
def get_devp2p_cmd_id (data : List Nat) : Except PyErr Nat :=
  match rlpDecodeS .bigEndianInt (data.take 1) with
  | .ok (.vint n) => .ok n
  | .ok _ => .error .deserializationError
  | .error .decoding => .error .decodingError
  | .error .deserList => .error .listDeserializationError
  | .error .deserOther => .error .deserializationError

/-- `Command.decode` (lines 121-130): check the packet type against the
bound `cmd_id` (`MalformedMessage` on mismatch), then decompress `data[1:]`
and decode the payload. -/
def decode (cmd : BoundCmd) (sd : List Nat → List Nat) (data : List Nat) :
    Except PyErr Payload :=
  match get_devp2p_cmd_id data with
  | .error e => .error e
  | .ok packet_type =>
    if packet_type ≠ cmd.cmd_id then .error .malformedMessage
    else decode_payload cmd.cmd_type (decompress_payload cmd sd (data.drop 1))

/-! ## The binding cache and `Protocol` (`p2p/protocol.py` lines 172-272) -/

abbrev CmdKey := CmdSchema × Nat × Bool

/-- The module-level `command_classes` look-up table. -/
abbrev CmdCache := List (CmdKey × BoundCmd)

/-- The generated `CommandClassInstance` for a specifier:
`cmd_id = _cmd_id_offset + cmd_class._cmd_id`, `cmd_type = cmd_class`. -/
def mkBoundCmd (cmd_class : CmdSchema) (cmd_id_offset : Nat) (snappy_support : Bool) :
    BoundCmd :=
  { cmd_type := cmd_class
    _cmd_id_offset := cmd_id_offset
    _snappy_support := snappy_support
    cmd_id := cmd_id_offset + cmd_class._cmd_id }

/-- Dictionary lookup in the cache (`specifier in command_classes.keys()`
and `command_classes[specifier]`). -/
def cacheLookup (cache : CmdCache) (k : CmdKey) : Option BoundCmd :=
  match cache with
  | [] => none
  | (k1, c) :: rest => if k1 = k then some c else cacheLookup rest k

/-- `get_command_class` (lines 174-198): return the cached bound command for
the specifier triple if present, else construct, cache and return a new
one.  The cache is threaded explicitly (it is a module-level global in the
source). -/
def get_command_class (cache : CmdCache) (cmd_class : CmdSchema) (cmd_id_offset : Nat)
    (snappy_support : Bool) : BoundCmd × CmdCache :=
  let specifier : CmdKey := (cmd_class, cmd_id_offset, snappy_support)
  match cacheLookup cache specifier with
  | some c => (c, cache)
  | none =>
    let c := mkBoundCmd cmd_class cmd_id_offset snappy_support
    (c, (specifier, c) :: cache)

/-- The mutable attributes of a `Protocol` instance (the `peer`
collaborator is outside the core).  `commands`, `cmd_by_type` and
`cmd_by_id` are the derived attributes set by
`_update_protocol_commands`; the two dicts are modelled as the association
lists produced by the comprehensions, in insertion order. -/
structure ProtocolState where
  _commands : List CmdSchema
  _cmd_id_offset : Nat
  _snappy_support : Bool
  commands : List BoundCmd := []
  cmd_by_type : List (CmdSchema × BoundCmd) := []
  cmd_by_id : List (Nat × BoundCmd) := []
deriving DecidableEq

/-- The list comprehension of `_update_protocol_commands`, threading the
global cache through the successive `get_command_class` calls. -/
def bindCommands (cache : CmdCache) (schemas : List CmdSchema) (off : Nat) (fl : Bool) :
    List BoundCmd × CmdCache :=
  match schemas with
  | [] => ([], cache)
  | c :: cs =>
    let bc := get_command_class cache c off fl
    let rest := bindCommands bc.2 cs off fl
    (bc.1 :: rest.1, rest.2)

/-- `Protocol._update_protocol_commands` (lines 232-236). -/
def _update_protocol_commands (p : ProtocolState) (cache : CmdCache) :
    ProtocolState × CmdCache :=
  let bc := bindCommands cache p._commands p._cmd_id_offset p._snappy_support
  ({ p with
      commands := bc.1
      cmd_by_type := bc.1.map fun cmd => (cmd.cmd_type, cmd)
      cmd_by_id := bc.1.map fun cmd => (cmd.cmd_id, cmd) },
    bc.2)

/-- `Protocol.__init__` (lines 226-230); `_commands` is the subclass's
class attribute. -/
def Protocol_init (_commands : List CmdSchema) (cmd_id_offset : Nat)
    (snappy_support : Bool) (cache : CmdCache) : ProtocolState × CmdCache :=
  _update_protocol_commands
    { _commands := _commands
      _cmd_id_offset := cmd_id_offset
      _snappy_support := snappy_support }
    cache

/-- The `snappy_support` property setter (lines 254-258): store the flag,
then re-bind all commands and rebuild both mappings. -/
def snappy_support_set (p : ProtocolState) (enabled : Bool) (cache : CmdCache) :
    ProtocolState × CmdCache :=
  _update_protocol_commands { p with _snappy_support := enabled } cache

/-! ## The base subprotocol (`p2p/p2p_proto.py`) -/

/-- `Hello`: id 0, `decode_strict = False`, never compressed (both
compression hooks overridden to the identity). -/
def Hello : CmdSchema :=
  { _cmd_id := 0
    decode_strict := false
    struc := .fields [
      ("version", .bigEndianInt),
      ("client_version_string", .text),
      ("capabilities", .countableList (.sList [.text, .bigEndianInt] true)),
      ("listen_port", .bigEndianInt),
      ("remote_pubkey", .binary)]
    compressionOverridden := true }

/-- `Disconnect`: id 1, a single `reason` field; `decode_strict` stays at
the `Command` default (`True`). -/
def Disconnect : CmdSchema :=
  { _cmd_id := 1
    struc := .fields [("reason", .bigEndianInt)] }

/-- `Ping`: id 2, inherits `structure = []` and `decode_strict = True`. -/
def Ping : CmdSchema := { _cmd_id := 2 }

/-- `Pong`: id 3, inherits `structure = []` and `decode_strict = True`. -/
def Pong : CmdSchema := { _cmd_id := 3 }

/-- The `DisconnectReason` enumeration: `DisconnectReason(id).name` when the
value is a member, `none` otherwise (where `DisconnectReason(id)` raises
`ValueError`). -/
def reasonName (reason_id : Nat) : Option String :=
  if reason_id = 0 then some "disconnect_requested"
  else if reason_id = 1 then some "tcp_sub_system_error"
  else if reason_id = 2 then some "bad_protocol"
  else if reason_id = 3 then some "useless_peer"
  else if reason_id = 4 then some "too_many_peers"
  else if reason_id = 5 then some "already_connected"
  else if reason_id = 6 then some "incompatible_p2p_version"
  else if reason_id = 7 then some "null_node_identity_received"
  else if reason_id = 8 then some "client_quitting"
  else if reason_id = 9 then some "unexpected_identity"
  else if reason_id = 10 then some "connected_to_self"
  else if reason_id = 11 then some "timeout"
  else if reason_id = 16 then some "subprotocol_error"
  else none

/-- `Disconnect.get_reason_name` (p2p_proto.py lines 72-77): the `try`
around `DisconnectReason(reason_id).name` degrades a `ValueError` to the
literal string `"unknown reason"`. -/
def get_reason_name (reason_id : Nat) : String :=
  (reasonName reason_id).getD "unknown reason"

/-- `eth_utils.toolz.assoc(d, key, value)`: a new dict equal to `d` with
`key` set to `value` (appended in insertion order when fresh). -/
def pyAssoc (entries : List (String × Value)) (k : String) (v : Value) :
    List (String × Value) :=
  if entries.any fun p => p.1 == k then
    entries.map fun p => if p.1 == k then (k, v) else p
  else entries ++ [(k, v)]

/-- A Python string as a payload value (a sequence of code points). -/
def textValue (str : String) : Value := .vtext (str.toList.map Char.toNat)

/-- `raw_decoded['reason']` as an integer; a successful `Disconnect` decode
always yields a dict whose `reason` value is an integer, so the fallback is
unreachable where this is used. -/
def getIntField (p : Payload) (k : String) : Nat :=
  match p with
  | .dict entries =>
    match entries.lookup k with
    | some (.vint n) => n
    | _ => 0
  | _ => 0

/-- `Disconnect.decode` (p2p_proto.py lines 79-86): `super().decode(data)`,
with `rlp.exceptions.ListDeserializationError` caught separately — but the
handler's first statement reads `self.logger`, and `self` is unbound inside
this classmethod, so executing the handler raises `NameError` before the
`raise MalformedMessage(...)` line is reached.  On success the decoded dict
is augmented with the derived `reason_name`. -/
def Disconnect_decode (cmd : BoundCmd) (sd : List Nat → List Nat) (data : List Nat) :
    Except PyErr Payload :=
  match decode cmd sd data with
  | .error .listDeserializationError => .error .nameError
  | .error e => .error e
  | .ok raw_decoded =>
    let entries := match raw_decoded with
      | .dict es => es
      | _ => []
    .ok (.dict (pyAssoc entries "reason_name"
      (textValue (get_reason_name (getIntField raw_decoded "reason")))))

/-- `P2PProtocol.__init__`: `_commands = [Hello, Ping, Pong, Disconnect]`,
`cmd_id_offset=0`, `snappy_support=False`. -/
def P2PProtocol_init (cache : CmdCache) : ProtocolState × CmdCache :=
  Protocol_init [Hello, Ping, Pong, Disconnect] 0 false cache

/-! ## Padding and framing lemmas -/

theorem pad16_mod (data : List Nat) :
    (_pad_to_16_byte_boundary data).length % 16 = 0 := by
  simp only [_pad_to_16_byte_boundary]
  split_ifs with h
  · simp only [List.length_append, List.length_replicate]
    omega
  · omega

theorem pad16_take (data : List Nat) :
    (_pad_to_16_byte_boundary data).take data.length = data := by
  simp only [_pad_to_16_byte_boundary]
  split_ifs with h
  · exact List.take_left data _
  · exact List.take_length data

theorem pad16_drop_zero (data : List Nat) :
    ∀ b ∈ (_pad_to_16_byte_boundary data).drop data.length, b = NULL_BYTE := by
  simp only [_pad_to_16_byte_boundary]
  split_ifs with h
  · rw [List.drop_left]
    intro b hb
    exact List.eq_of_mem_replicate hb
  · simp

theorem pad16_of_mod (data : List Nat) (h : data.length % 16 = 0) :
    _pad_to_16_byte_boundary data = data := by
  simp only [_pad_to_16_byte_boundary]
  simp [h]

/-- C2 — Frame construction: for every encoded command id `eci` and
compressed payload `cp` with `b = eci ++ cp` within the size limit,
`encode`'s framing returns a 16-byte header equal to the 3-byte big-endian
length of `b` followed by the marker `0xC2 0x80 0x80` and zero padding, and
a body that is `b` zero-padded to a multiple of 16 (equal to `b` exactly
when `b`'s length is already a multiple of 16). -/
theorem frame_construction (cmd_id : Nat) (cp eci : List Nat)
    (henc : rlpEncodeS .bigEndianInt (.vint cmd_id) = .ok eci)
    (hsz : (eci ++ cp).length < 2 ^ 24) :
    ∃ header body, frameEncode cmd_id cp = .ok (header, body)
      ∧ header = beFixed 3 (eci ++ cp).length
          ++ [0xc2, 0x80, 0x80] ++ List.replicate 10 NULL_BYTE
      ∧ header.length = 16
      ∧ body.length % 16 = 0
      ∧ body.take (eci ++ cp).length = eci ++ cp
      ∧ (∀ x ∈ body.drop (eci ++ cp).length, x = NULL_BYTE)
      ∧ ((eci ++ cp).length % 16 = 0 → body = eci ++ cp) := by
  rw [List.length_append] at hsz
  have hbit : ¬ (bit_length (eci.length + cp.length) > 24) := by
    rw [bit_length_gt_24_iff]
    omega
  have hfe : frameEncode cmd_id cp
      = .ok (_pad_to_16_byte_boundary
               ((beFixed 4 (eci.length + cp.length)).drop 1 ++ [0xc2, 0x80, 0x80]),
             _pad_to_16_byte_boundary (eci ++ cp)) := by
    rw [frameEncode, henc]
    simp only [hbit, if_false]
  have hdrop : (beFixed 4 (eci.length + cp.length)).drop 1
      = beFixed 3 (eci.length + cp.length) := beFixed_four_drop _ (by omega)
  have hheader : _pad_to_16_byte_boundary
        ((beFixed 4 (eci.length + cp.length)).drop 1 ++ [0xc2, 0x80, 0x80])
      = beFixed 3 (eci.length + cp.length)
          ++ [0xc2, 0x80, 0x80] ++ List.replicate 10 NULL_BYTE := by
    rw [hdrop]
    have hlen6 : (beFixed 3 (eci.length + cp.length) ++ [0xc2, 0x80, 0x80]).length = 6 := by
      simp [beFixed_length]
    simp only [_pad_to_16_byte_boundary, hlen6]
    norm_num
  refine ⟨_, _, hfe, ?_, ?_, ?_, ?_, ?_, ?_⟩
  · rw [hheader, List.length_append]
  · rw [hheader]
    simp only [List.length_append, List.length_cons, List.length_nil,
      List.length_replicate, beFixed_length]
  · exact pad16_mod _
  · exact pad16_take _
  · exact pad16_drop_zero _
  · exact pad16_of_mod _

/-- C3 — Frame size limit: with the command id encoded as `eci`, the frame
builder fails with the `ValueError` (the spec's encoding error) exactly
when `len(eci) + len(cp) ≥ 2^24`, succeeds past the size check whenever the
length is at most `2^24 − 1`, and `Command.encode` is exactly this frame
builder applied after payload encoding and compression. -/
theorem frame_size_limit (cmd_id : Nat) (cp eci : List Nat)
    (henc : rlpEncodeS .bigEndianInt (.vint cmd_id) = .ok eci) :
    (frameEncode cmd_id cp = .error .valueError ↔ 2 ^ 24 ≤ eci.length + cp.length)
    ∧ (eci.length + cp.length ≤ 2 ^ 24 - 1 →
        ∃ hb, frameEncode cmd_id cp = .ok hb)
    ∧ (∀ (cmd : BoundCmd) (sc : List Nat → List Nat) (data : Payload) (ep : List Nat),
        encode_payload cmd.cmd_type data = .ok ep →
        encode cmd sc data = frameEncode cmd.cmd_id (compress_payload cmd sc ep)) := by
  refine ⟨?_, ?_, ?_⟩
  · rw [frameEncode, henc]
    constructor
    · intro h
      by_contra hlt
      push_neg at hlt
      have hbit : ¬ (bit_length (eci.length + cp.length) > 24) := by
        rw [bit_length_gt_24_iff]
        omega
      simp only [hbit, if_false] at h
      exact absurd h (by simp)
    · intro h
      have hbit : bit_length (eci.length + cp.length) > 24 := by
        rw [bit_length_gt_24_iff]
        omega
      simp only [hbit, if_true]
  · intro h
    rw [frameEncode, henc]
    have hbit : ¬ (bit_length (eci.length + cp.length) > 24) := by
      rw [bit_length_gt_24_iff]
      omega
    simp only [hbit, if_false]
    exact ⟨_, rfl⟩
  · intro cmd sc data ep hp
    rw [encode, hp]

/-- Witness for `frame_construction` at a concrete input. -/
theorem frame_construction_witness :
    ∃ header body, frameEncode 2 [7, 8] = .ok (header, body)
      ∧ header = beFixed 3 ([2] ++ [7, 8]).length
          ++ [0xc2, 0x80, 0x80] ++ List.replicate 10 NULL_BYTE
      ∧ header.length = 16
      ∧ body.length % 16 = 0
      ∧ body.take ([2] ++ [7, 8]).length = [2] ++ [7, 8]
      ∧ (∀ x ∈ body.drop ([2] ++ [7, 8]).length, x = NULL_BYTE)
      ∧ (([2] ++ [7, 8]).length % 16 = 0 → body = [2] ++ [7, 8]) :=
  frame_construction 2 [7, 8] [2] (by decide) (by decide)

/-- Witness for `frame_size_limit` at a concrete input. -/
theorem frame_size_limit_witness :
    ((frameEncode 2 [7, 8] = .error .valueError ↔ 2 ^ 24 ≤ [2].length + [7, 8].length)
      ∧ ([2].length + [7, 8].length ≤ 2 ^ 24 - 1 → ∃ hb, frameEncode 2 [7, 8] = .ok hb)
      ∧ (∀ (cmd : BoundCmd) (sc : List Nat → List Nat) (data : Payload) (ep : List Nat),
          encode_payload cmd.cmd_type data = .ok ep →
          encode cmd sc data = frameEncode cmd.cmd_id (compress_payload cmd sc ep)))
    ∧ frameEncode 2 [7, 8] = .ok
        ([0, 0, 3, 0xc2, 0x80, 0x80, 0, 0, 0, 0, 0, 0, 0, 0, 0, 0],
         [2, 7, 8, 0, 0, 0, 0, 0, 0, 0, 0, 0, 0, 0, 0, 0]) :=
  ⟨frame_size_limit 2 [7, 8] [2] (by decide), by decide⟩

/-! ## Binding-cache well-formedness -/

/-- Every entry of the global cache maps a specifier to exactly the bound
command `get_command_class` constructs for it (true initially — the table
starts empty — and preserved by every call). -/
def WFCache (cache : CmdCache) : Prop :=
  ∀ k c, (k, c) ∈ cache → c = mkBoundCmd k.1 k.2.1 k.2.2

theorem cacheLookup_mem (cache : CmdCache) (k : CmdKey) (c : BoundCmd)
    (h : cacheLookup cache k = some c) : (k, c) ∈ cache := by
  induction cache with
  | nil => simp [cacheLookup] at h
  | cons kc rest ih =>
    match kc with
    | (k1, c1) =>
      rw [cacheLookup] at h
      split_ifs at h with he
      · simp only [Option.some.injEq] at h
        subst h
        subst he
        exact List.mem_cons_self _ _
      · exact List.mem_cons_of_mem _ (ih h)

theorem get_command_class_some (cache : CmdCache) (c : CmdSchema) (off : Nat) (fl : Bool)
    (c1 : BoundCmd) (hl : cacheLookup cache (c, off, fl) = some c1) :
    get_command_class cache c off fl = (c1, cache) := by
  rw [get_command_class, hl]

theorem get_command_class_none (cache : CmdCache) (c : CmdSchema) (off : Nat) (fl : Bool)
    (hl : cacheLookup cache (c, off, fl) = none) :
    get_command_class cache c off fl
      = (mkBoundCmd c off fl, ((c, off, fl), mkBoundCmd c off fl) :: cache) := by
  rw [get_command_class, hl]

theorem get_command_class_wf (cache : CmdCache) (c : CmdSchema) (off : Nat) (fl : Bool)
    (h : WFCache cache) :
    (get_command_class cache c off fl).1 = mkBoundCmd c off fl
    ∧ WFCache (get_command_class cache c off fl).2 := by
  cases hl : cacheLookup cache (c, off, fl) with
  | some c1 =>
    rw [get_command_class_some cache c off fl c1 hl]
    exact ⟨h _ _ (cacheLookup_mem _ _ _ hl), h⟩
  | none =>
    rw [get_command_class_none cache c off fl hl]
    refine ⟨rfl, ?_⟩
    intro k c2 hm
    rcases List.mem_cons.mp hm with he | hm2
    · rw [Prod.mk.injEq] at he
      obtain ⟨hk, hc2⟩ := he
      subst hk
      subst hc2
      rfl
    · exact h _ _ hm2

/-- `encode` reads only `cmd_type`, `_snappy_support` and `cmd_id` of the
bound command. -/
theorem encode_ext (b1 b2 : BoundCmd) (h1 : b1.cmd_type = b2.cmd_type)
    (h2 : b1._snappy_support = b2._snappy_support) (h3 : b1.cmd_id = b2.cmd_id)
    (sc : List Nat → List Nat) (p : Payload) : encode b1 sc p = encode b2 sc p := by
  simp only [encode, compress_payload, h1, h2, h3]

/-- `decode` reads only `cmd_type`, `_snappy_support` and `cmd_id` of the
bound command. -/
theorem decode_ext (b1 b2 : BoundCmd) (h1 : b1.cmd_type = b2.cmd_type)
    (h2 : b1._snappy_support = b2._snappy_support) (h3 : b1.cmd_id = b2.cmd_id)
    (sd : List Nat → List Nat) (data : List Nat) : decode b1 sd data = decode b2 sd data := by
  simp only [decode, decompress_payload, h1, h2, h3]

/-- C8 — Binding cache and id multiplexing: `get_command_class` is memoized
on the `(schema, offset, snappy)` triple (a repeated call returns the
cached command and leaves the cache unchanged); every bound command it
produces has `cmd_id = offset + schema._cmd_id`; two bindings of one schema
at different offsets get different `cmd_id`s; and two such bindings with
equal compression flags have identical encode/decode behaviour once their
`cmd_id`s are equalized (they differ only in the command id). -/
theorem binding_cache_id_multiplexing :
    (∀ (cache : CmdCache) (c : CmdSchema) (off : Nat) (fl : Bool),
      get_command_class (get_command_class cache c off fl).2 c off fl
        = get_command_class cache c off fl)
    ∧ (∀ (cache : CmdCache) (c : CmdSchema) (off : Nat) (fl : Bool), WFCache cache →
        (get_command_class cache c off fl).1 = mkBoundCmd c off fl
        ∧ (get_command_class cache c off fl).1.cmd_id = off + c._cmd_id
        ∧ WFCache (get_command_class cache c off fl).2)
    ∧ (∀ (c : CmdSchema) (off1 off2 : Nat) (fl : Bool), off1 ≠ off2 →
        (mkBoundCmd c off1 fl).cmd_id ≠ (mkBoundCmd c off2 fl).cmd_id)
    ∧ (∀ (c : CmdSchema) (off1 off2 x : Nat) (fl : Bool) (sc sd : List Nat → List Nat)
        (p : Payload) (data : List Nat),
        encode { mkBoundCmd c off1 fl with cmd_id := x } sc p
          = encode { mkBoundCmd c off2 fl with cmd_id := x } sc p
        ∧ decode { mkBoundCmd c off1 fl with cmd_id := x } sd data
          = decode { mkBoundCmd c off2 fl with cmd_id := x } sd data) := by
  refine ⟨?_, ?_, ?_, ?_⟩
  · intro cache c off fl
    cases hl : cacheLookup cache (c, off, fl) with
    | some c1 =>
      rw [get_command_class_some cache c off fl c1 hl]
      exact get_command_class_some cache c off fl c1 hl
    | none =>
      rw [get_command_class_none cache c off fl hl]
      rw [get_command_class, cacheLookup, if_pos rfl]
  · intro cache c off fl h
    have hwf := get_command_class_wf cache c off fl h
    refine ⟨hwf.1, ?_, hwf.2⟩
    rw [hwf.1]
    rfl
  · intro c off1 off2 fl hne
    simp only [mkBoundCmd, ne_eq]
    omega
  · intro c off1 off2 x fl sc sd p data
    constructor
    · exact encode_ext _ _ rfl rfl rfl sc p
    · exact decode_ext _ _ rfl rfl rfl sd data

/-- Witness for `binding_cache_id_multiplexing`'s well-formedness
hypothesis: the initially empty cache. -/
theorem binding_cache_id_multiplexing_witness :
    (get_command_class [] Ping 16 false).1 = mkBoundCmd Ping 16 false
    ∧ (get_command_class [] Ping 16 false).1.cmd_id = 16 + Ping._cmd_id
    ∧ WFCache (get_command_class [] Ping 16 false).2 :=
  binding_cache_id_multiplexing.2.1 [] Ping 16 false (by intro k c h; simp at h)

theorem bindCommands_wf (schemas : List CmdSchema) (cache : CmdCache) (off : Nat)
    (fl : Bool) (h : WFCache cache) :
    (bindCommands cache schemas off fl).1 = schemas.map (fun c => mkBoundCmd c off fl)
    ∧ WFCache (bindCommands cache schemas off fl).2 := by
  induction schemas generalizing cache with
  | nil => exact ⟨rfl, h⟩
  | cons c cs ih =>
    rw [bindCommands]
    have h1 := get_command_class_wf cache c off fl h
    have h2 := ih (get_command_class cache c off fl).2 h1.2
    simp only [List.map_cons]
    exact ⟨by rw [h1.1, h2.1], h2.2⟩

/-- C9 — Snappy toggle consistency: after `Protocol.__init__`, and after
every `snappy_support = b` assignment, the protocol's `commands` are
exactly the schemas bound at the protocol's offset with the current flag
(no command retains a previous flag), and `cmd_by_type` / `cmd_by_id` are
exactly the mappings from each bound command's `cmd_type` / `cmd_id` to
that command over the rebuilt list. -/
theorem snappy_toggle_consistency :
    (∀ (schemas : List CmdSchema) (off : Nat) (b : Bool) (cache : CmdCache),
      WFCache cache →
      ((Protocol_init schemas off b cache).1.commands
          = schemas.map fun c => mkBoundCmd c off b)
      ∧ (∀ cmd ∈ (Protocol_init schemas off b cache).1.commands,
          cmd._snappy_support = b ∧ cmd._cmd_id_offset = off)
      ∧ (Protocol_init schemas off b cache).1.cmd_by_type
          = (Protocol_init schemas off b cache).1.commands.map (fun cmd => (cmd.cmd_type, cmd))
      ∧ (Protocol_init schemas off b cache).1.cmd_by_id
          = (Protocol_init schemas off b cache).1.commands.map (fun cmd => (cmd.cmd_id, cmd))
      ∧ WFCache (Protocol_init schemas off b cache).2)
    ∧ (∀ (p : ProtocolState) (b : Bool) (cache : CmdCache), WFCache cache →
        ((snappy_support_set p b cache).1._snappy_support = b)
        ∧ ((snappy_support_set p b cache).1.commands
            = p._commands.map fun c => mkBoundCmd c p._cmd_id_offset b)
        ∧ (∀ cmd ∈ (snappy_support_set p b cache).1.commands,
            cmd._snappy_support = b ∧ cmd._cmd_id_offset = p._cmd_id_offset)
        ∧ (snappy_support_set p b cache).1.cmd_by_type
            = (snappy_support_set p b cache).1.commands.map (fun cmd => (cmd.cmd_type, cmd))
        ∧ (snappy_support_set p b cache).1.cmd_by_id
            = (snappy_support_set p b cache).1.commands.map (fun cmd => (cmd.cmd_id, cmd))
        ∧ WFCache (snappy_support_set p b cache).2) := by
  constructor
  · intro schemas off b cache h
    have hb := bindCommands_wf schemas cache off b h
    rw [Protocol_init, _update_protocol_commands]
    refine ⟨hb.1, ?_, rfl, rfl, hb.2⟩
    intro cmd hm
    rw [hb.1] at hm
    rcases List.mem_map.mp hm with ⟨c, _, rfl⟩
    exact ⟨rfl, rfl⟩
  · intro p b cache h
    have hb := bindCommands_wf p._commands cache p._cmd_id_offset b h
    rw [snappy_support_set, _update_protocol_commands]
    refine ⟨rfl, hb.1, ?_, rfl, rfl, hb.2⟩
    intro cmd hm
    rw [hb.1] at hm
    rcases List.mem_map.mp hm with ⟨c, _, rfl⟩
    exact ⟨rfl, rfl⟩

/-- Witness for `snappy_toggle_consistency`: the base protocol construction
with the empty cache, and a toggle to `true` afterwards. -/
theorem snappy_toggle_consistency_witness :
    ((P2PProtocol_init []).1.commands
        = [Hello, Ping, Pong, Disconnect].map fun c => mkBoundCmd c 0 false)
    ∧ ((snappy_support_set (P2PProtocol_init []).1 true (P2PProtocol_init []).2).1.commands
        = [Hello, Ping, Pong, Disconnect].map fun c => mkBoundCmd c 0 true) := by
  have hwf : WFCache ([] : CmdCache) := by intro k c h; simp at h
  have h1 := snappy_toggle_consistency.1 [Hello, Ping, Pong, Disconnect] 0 false [] hwf
  have h2 := snappy_toggle_consistency.2 (P2PProtocol_init []).1 true (P2PProtocol_init []).2
    (by
      have := h1.2.2.2.2
      rw [P2PProtocol_init]
      exact this)
  constructor
  · rw [P2PProtocol_init]
    exact h1.1
  · have hcomm : (P2PProtocol_init []).1._commands = [Hello, Ping, Pong, Disconnect] := rfl
    have hoff : (P2PProtocol_init []).1._cmd_id_offset = 0 := rfl
    rw [← hcomm, ← hoff]
    exact h2.2.1

/-- C7 — Hello is never compressed: its binding's `compress_payload` and
`decompress_payload` are the identity whatever the snappy flag, and
encoding a Hello payload through bindings that differ only in the flag is
byte-identical. -/
theorem hello_never_compressed :
    (∀ (off : Nat) (sc : List Nat → List Nat) (p : Payload),
      encode (mkBoundCmd Hello off true) sc p = encode (mkBoundCmd Hello off false) sc p)
    ∧ (∀ (off : Nat) (b : Bool) (sc : List Nat → List Nat) (bs : List Nat),
        compress_payload (mkBoundCmd Hello off b) sc bs = bs)
    ∧ (∀ (off : Nat) (b : Bool) (sd : List Nat → List Nat) (bs : List Nat),
        decompress_payload (mkBoundCmd Hello off b) sd bs = bs) := by
  have hover : Hello.compressionOverridden = true := rfl
  refine ⟨?_, ?_, ?_⟩
  · intro off sc p
    simp only [encode, compress_payload, mkBoundCmd, hover, if_true]
  · intro off b sc bs
    simp only [compress_payload, mkBoundCmd, hover, if_true]
  · intro off b sd bs
    simp only [decompress_payload, mkBoundCmd, hover, if_true]

/-! ## Decode-strictness lemmas -/

theorem deserZip_length (ss : List Sedes) (items : List RLPItem) (vs : List Value)
    (h : deserZip ss items = .ok vs) : vs.length = min ss.length items.length := by
  induction ss generalizing items vs with
  | nil =>
    match items with
    | [] =>
      rw [deserZip] at h
      simp only [Except.ok.injEq] at h
      subst h
      rfl
    | _ :: _ =>
      rw [deserZip] at h
      simp only [Except.ok.injEq] at h
      subst h
      rfl
  | cons s1 ss1 ih =>
    match items with
    | [] =>
      rw [deserZip] at h
      simp only [Except.ok.injEq] at h
      subst h
      rfl
    | item :: items1 =>
      rw [deserZip] at h
      split at h
      · rename_i v vs1 hv hvs
        simp only [Except.ok.injEq] at h
        subst h
        simp only [List.length_cons, ih items1 vs1 hvs]
        omega
      · exact absurd h (by simp)
      · exact absurd h (by simp)

theorem zipFields_fst (fs : List (String × Sedes)) (vs : List Value)
    (h : fs.length ≤ vs.length) :
    (zipFields fs vs).map Prod.fst = fs.map Prod.fst := by
  induction fs generalizing vs with
  | nil => rfl
  | cons f fs1 ih =>
    match vs with
    | [] => simp at h
    | v :: vs1 =>
      simp only [List.length_cons] at h
      simp only [zipFields, List.zip_cons_cons, List.map_cons]
      have := ih vs1 (by omega)
      simp only [zipFields] at this
      rw [this]

/-- Strict field-mode decoding rejects every payload whose decoded sequence
length differs from the field count; the failure is the (uncaught)
`ListDeserializationError`, not `MalformedMessage`. -/
theorem decode_payload_strict_mismatch (cls : CmdSchema) (fs : List (String × Sedes))
    (bs : List Nat) (items : List RLPItem)
    (hstruc : cls.struc = .fields fs) (hstrict : cls.decode_strict = true)
    (hparse : parseItemF (2 * bs.length + 1) bs = .ok (.list items, []))
    (hlen : items.length ≠ fs.length) :
    decode_payload cls bs = .error .listDeserializationError := by
  have hg : (cls.decode_strict && items.length != (fs.map Prod.snd).length) = true := by
    simp only [hstrict, List.length_map, Bool.true_and, bne_iff_ne, ne_eq]
    exact hlen
  rw [decode_payload, hstruc]
  unfold rlpDecodeS
  rw [hparse]
  simp only [deserSedes, hg, if_true]

/-- Non-strict field-mode decoding accepts extra trailing elements,
yielding the dict of the declared fields only. -/
theorem decode_payload_nonstrict (cls : CmdSchema) (fs : List (String × Sedes))
    (bs : List Nat) (items : List RLPItem) (vs : List Value)
    (hstruc : cls.struc = .fields fs) (hstrict : cls.decode_strict = false)
    (hparse : parseItemF (2 * bs.length + 1) bs = .ok (.list items, []))
    (hdes : deserZip (fs.map Prod.snd) items = .ok vs) :
    decode_payload cls bs = .ok (.dict (zipFields fs vs)) := by
  rw [decode_payload, hstruc]
  unfold rlpDecodeS
  rw [hparse]
  simp only [deserSedes, hstrict, Bool.false_and, Bool.false_eq_true, if_false, hdes,
    asVList]

/-- C10 — Strictness defaults: `decode_strict` defaults to `True` in the
`Command` base class; `Disconnect`, `Ping` and `Pong` do not override it
and so reject any decoded sequence whose length differs from their field
count (any non-empty sequence, for `Ping`/`Pong`); `Hello` alone sets it to
`False` and tolerates extra trailing elements. -/
theorem strictness_defaults :
    (∀ n : Nat, ({ _cmd_id := n } : CmdSchema).decode_strict = true)
    ∧ Disconnect.decode_strict = true
    ∧ Ping.decode_strict = true
    ∧ Pong.decode_strict = true
    ∧ Hello.decode_strict = false
    ∧ (∀ (bs : List Nat) (items : List RLPItem),
        parseItemF (2 * bs.length + 1) bs = .ok (.list items, []) → items.length ≠ 1 →
        decode_payload Disconnect bs = .error .listDeserializationError)
    ∧ (∀ (bs : List Nat) (items : List RLPItem),
        parseItemF (2 * bs.length + 1) bs = .ok (.list items, []) → items ≠ [] →
        decode_payload Ping bs = .error .listDeserializationError)
    ∧ (∀ (bs : List Nat) (items : List RLPItem),
        parseItemF (2 * bs.length + 1) bs = .ok (.list items, []) → items ≠ [] →
        decode_payload Pong bs = .error .listDeserializationError)
    ∧ (∀ (fs : List (String × Sedes)) (bs : List Nat) (items : List RLPItem)
        (vs : List Value),
        Hello.struc = .fields fs →
        parseItemF (2 * bs.length + 1) bs = .ok (.list items, []) →
        deserZip (fs.map Prod.snd) items = .ok vs →
        decode_payload Hello bs = .ok (.dict (zipFields fs vs))) := by
  refine ⟨fun _ => rfl, rfl, rfl, rfl, rfl, ?_, ?_, ?_, ?_⟩
  · intro bs items hp hl
    exact decode_payload_strict_mismatch Disconnect [("reason", .bigEndianInt)] bs items
      rfl rfl hp (by simpa using hl)
  · intro bs items hp hl
    exact decode_payload_strict_mismatch Ping [] bs items rfl rfl hp
      (by simpa using List.length_pos_iff_ne_nil.mpr hl |>.ne')
  · intro bs items hp hl
    exact decode_payload_strict_mismatch Pong [] bs items rfl rfl hp
      (by simpa using List.length_pos_iff_ne_nil.mpr hl |>.ne')
  · intro fs bs items vs hstruc hp hdes
    exact decode_payload_nonstrict Hello fs bs items vs hstruc rfl hp hdes

/-- Witness for `strictness_defaults`: a two-element sequence against
`Disconnect` (one strict field) fails; a one-element sequence with a
trailing extra against `Hello`'s five fields is not needed — instead a
six-element sequence against Hello's five fields decodes to its five
declared fields. -/
theorem strictness_defaults_witness :
    decode_payload Disconnect [0xc2, 1, 2] = .error .listDeserializationError
    ∧ decode_payload Ping [0xc1, 5] = .error .listDeserializationError := by
  constructor
  · exact strictness_defaults.2.2.2.2.2.1 [0xc2, 1, 2] [.str [1], .str [2]]
      (by decide) (by decide)
  · exact strictness_defaults.2.2.2.2.2.2.1 [0xc1, 5] [.str [5]] (by decide) (by decide)

/-- C5 (counterexample to the claim as stated): a 2-element payload decoded
against `Disconnect` (one field, strict) fails with the uncaught
`ListDeserializationError`, not with `MalformedMessage`: `decode_payload`'s
`except` clause catches only `rlp.DecodingError`, and
`ListDeserializationError` is not one. -/
theorem strictness_error_class_counterexample :
    decode_payload Disconnect [0xc2, 1, 2] = .error .listDeserializationError
    ∧ decode_payload Disconnect [0xc2, 1, 2] ≠ .error .malformedMessage := by
  constructor
  · decide
  · decide

/-- C5 (amended) — Decode strictness: with `decode_strict = True`, any
payload decoding to a sequence of the wrong length fails — with
`ListDeserializationError` (which propagates uncaught), not
`MalformedMessage`; with `decode_strict = False`, extra trailing elements
are tolerated and the result is the mapping of the declared fields only. -/
theorem decode_strictness :
    (∀ (cls : CmdSchema) (fs : List (String × Sedes)) (bs : List Nat)
        (items : List RLPItem),
      cls.struc = .fields fs → cls.decode_strict = true →
      parseItemF (2 * bs.length + 1) bs = .ok (.list items, []) →
      items.length ≠ fs.length →
      decode_payload cls bs = .error .listDeserializationError)
    ∧ (∀ (cls : CmdSchema) (fs : List (String × Sedes)) (bs : List Nat)
        (items : List RLPItem) (vs : List Value),
        cls.struc = .fields fs → cls.decode_strict = false →
        parseItemF (2 * bs.length + 1) bs = .ok (.list items, []) →
        fs.length ≤ items.length →
        deserZip (fs.map Prod.snd) items = .ok vs →
        decode_payload cls bs = .ok (.dict (zipFields fs vs))
        ∧ (zipFields fs vs).map Prod.fst = fs.map Prod.fst) := by
  constructor
  · exact fun cls fs bs items h1 h2 h3 h4 =>
      decode_payload_strict_mismatch cls fs bs items h1 h2 h3 h4
  · intro cls fs bs items vs h1 h2 h3 h4 h5
    refine ⟨decode_payload_nonstrict cls fs bs items vs h1 h2 h3 h5, ?_⟩
    apply zipFields_fst
    have := deserZip_length (fs.map Prod.snd) items vs h5
    simp only [List.length_map] at this
    omega

/-- A one-field schema with `decode_strict = False`, for exercising the
forward-compatibility tolerance. -/
def NonStrictOneField : CmdSchema :=
  { _cmd_id := 9
    decode_strict := false
    struc := .fields [("reason", .bigEndianInt)] }

/-- Witness for `decode_strictness`: a 2-field payload against a 1-field
strict schema fails; the same against a 1-field non-strict schema succeeds
with only the declared field. -/
theorem decode_strictness_witness :
    decode_payload Disconnect [0xc2, 1, 2] = .error .listDeserializationError
    ∧ (decode_payload NonStrictOneField [0xc2, 1, 2]
        = .ok (.dict (zipFields [("reason", .bigEndianInt)] [.vint 1]))
      ∧ (zipFields [("reason", Sedes.bigEndianInt)] [.vint 1]).map Prod.fst
        = [("reason", Sedes.bigEndianInt)].map Prod.fst) := by
  constructor
  · exact decode_strictness.1 Disconnect [("reason", .bigEndianInt)] [0xc2, 1, 2]
      [.str [1], .str [2]] rfl rfl (by decide) (by decide)
  · exact decode_strictness.2 NonStrictOneField [("reason", .bigEndianInt)]
      [0xc2, 1, 2] [.str [1], .str [2]] [.vint 1] rfl rfl (by decide) (by decide) (by decide)

/-- C4 (code defect) — On a Disconnect frame body whose payload fails
structured decoding with a list-shape error, `Disconnect.decode`'s
`except ListDeserializationError` handler executes `self.logger.warning(...)`,
but `self` is unbound in the classmethod: the handler raises `NameError`
before its `raise MalformedMessage(...)` line can run.  Concretely: body
`[0x01, 0xC2, 0x01, 0x02]` (command id 1, payload = the RLP list `[1, 2]`,
which the strict one-field schema rejects). -/
theorem disconnect_list_error_raises_name_error :
    Disconnect_decode (mkBoundCmd Disconnect 0 false) (fun bs => bs) [1, 0xc2, 1, 2]
      = .error .nameError
    ∧ Disconnect_decode (mkBoundCmd Disconnect 0 false) (fun bs => bs) [1, 0xc2, 1, 2]
      ≠ .error .malformedMessage := by
  constructor
  · decide
  · decide

set_option maxHeartbeats 1600000 in
/-- C6 — Disconnect reason fallback: decoding any well-formed Disconnect
body (command id 1 followed by the RLP encoding of `[reason]`) yields a
mapping whose `reason_name` is the enumeration name of the code when the
code is one of 0–11 or 16 (in particular 3 ↦ `"useless_peer"`), and the
literal `"unknown reason"` for every other integer (in particular 99);
`get_reason_name` is total, so resolving the name never raises. -/
theorem disconnect_reason_fallback :
    (∀ (n : Nat) (pl : List Nat) (sd : List Nat → List Nat),
      rlpEncodeS (.sList [.bigEndianInt] true) (.vlist [.vint n]) = .ok pl →
      Disconnect_decode (mkBoundCmd Disconnect 0 false) sd (1 :: pl)
        = .ok (.dict [("reason", .vint n),
            ("reason_name", textValue (get_reason_name n))]))
    ∧ get_reason_name 3 = "useless_peer"
    ∧ get_reason_name 99 = "unknown reason"
    ∧ (∀ m : Nat, (m ≤ 11 ∨ m = 16) → ∃ str, reasonName m = some str
        ∧ get_reason_name m = str)
    ∧ (∀ m : Nat, ¬ (m ≤ 11 ∨ m = 16) →
        reasonName m = none ∧ get_reason_name m = "unknown reason") := by
  refine ⟨?_, by decide, by decide, ?_, ?_⟩
  · intro n pl sd henc
    have hdec := rlpDecodeS_rlpEncodeS _ _ _ henc
    have ht : (1 :: pl).take 1 = [1] := rfl
    have hid : get_devp2p_cmd_id (1 :: pl) = .ok 1 := by
      unfold get_devp2p_cmd_id
      rw [ht]
      rfl
    have hdcd : decode (mkBoundCmd Disconnect 0 false) sd (1 :: pl)
        = .ok (.dict [("reason", .vint n)]) := by
      unfold decode
      rw [hid]
      have hne : ¬ ((1 : Nat) ≠ (mkBoundCmd Disconnect 0 false).cmd_id) := by decide
      simp only [hne, if_false]
      have hdecomp : decompress_payload (mkBoundCmd Disconnect 0 false) sd
          ((1 :: pl).drop 1) = pl := by
        rw [decompress_payload]
        norm_num [mkBoundCmd]
      rw [hdecomp]
      have hstruc : Disconnect.struc = .fields [("reason", Sedes.bigEndianInt)] := rfl
      have hmk : (mkBoundCmd Disconnect 0 false).cmd_type = Disconnect := rfl
      rw [hmk, decode_payload, hstruc]
      simp only [List.map_cons, List.map_nil]
      have hds : Disconnect.decode_strict = true := rfl
      rw [hds, hdec]
      rfl
    unfold Disconnect_decode
    rw [hdcd]
    rfl
  · intro m hm
    rcases hm with hm | hm
    · interval_cases m <;> exact ⟨_, rfl, rfl⟩
    · subst hm
      exact ⟨_, rfl, rfl⟩
  · intro m hm
    push_neg at hm
    have hnone : reasonName m = none := by
      have h0 : m ≠ 0 := by omega
      have h1 : m ≠ 1 := by omega
      have h2 : m ≠ 2 := by omega
      have h3 : m ≠ 3 := by omega
      have h4 : m ≠ 4 := by omega
      have h5 : m ≠ 5 := by omega
      have h6 : m ≠ 6 := by omega
      have h7 : m ≠ 7 := by omega
      have h8 : m ≠ 8 := by omega
      have h9 : m ≠ 9 := by omega
      have h10 : m ≠ 10 := by omega
      have h11 : m ≠ 11 := by omega
      have h16 : m ≠ 16 := hm.2
      unfold reasonName
      rw [if_neg h0, if_neg h1, if_neg h2, if_neg h3, if_neg h4, if_neg h5, if_neg h6,
        if_neg h7, if_neg h8, if_neg h9, if_neg h10, if_neg h11, if_neg h16]
    exact ⟨hnone, by unfold get_reason_name; rw [hnone]; rfl⟩

/-- Witness for `disconnect_reason_fallback` at reason code 3. -/
theorem disconnect_reason_fallback_witness :
    Disconnect_decode (mkBoundCmd Disconnect 0 false) (fun bs => bs) [1, 0xc1, 3]
      = .ok (.dict [("reason", .vint 3),
          ("reason_name", textValue (get_reason_name 3))]) :=
  disconnect_reason_fallback.1 3 [0xc1, 3] (fun bs => bs) (by decide)

/-! ## Conformance and Python equality, for the round-trip property -/

mutual
/-- A value has the Python type a sedes declares: an `int` for
`big_endian_int`, a `str` of genuine scalar values for `text` (a `str`
holding a lone surrogate cannot be UTF-8 encoded), `bytes` for `binary`,
and sequences — a `list` or a `tuple`, as `is_sequence` accepts — of the
right shapes for the two list sedes. -/
def conformsVal : Sedes → Value → Bool
  | .bigEndianInt, .vint _ => true
  | .text, .vtext cps => cps.all validScalar
  | .binary, .vbytes _ => true
  | .sList elems strict, .vlist vs =>
    (if strict then vs.length == elems.length else vs.length ≤ elems.length)
      && conformsZip elems vs
  | .sList elems strict, .vtuple vs =>
    (if strict then vs.length == elems.length else vs.length ≤ elems.length)
      && conformsZip elems vs
  | .countableList e, .vlist vs => conformsAll e vs
  | .countableList e, .vtuple vs => conformsAll e vs
  | _, _ => false

def conformsZip : List Sedes → List Value → Bool
  | _, [] => true
  | [], _ :: _ => true
  | s :: ss, v :: vs => conformsVal s v && conformsZip ss vs

def conformsAll : Sedes → List Value → Bool
  | _, [] => true
  | e, v :: vs => conformsVal e v && conformsAll e vs
end

/-- A payload conforms to a schema: in field-mapping mode it is a dict
(unique keys, as any Python dict has) whose key set equals the schema's
field names and whose values have the declared types; in homogeneous-list
mode it is a sequence of the element type. -/
def conforms (cls : CmdSchema) (p : Payload) : Bool :=
  match cls.struc, p with
  | .fields fs, .dict entries =>
    decide (entries.map Prod.fst).Nodup
      && (entries.map Prod.fst).isPerm (fs.map Prod.fst)
      && fs.all (fun nf => conformsVal nf.2 (lookupVal entries nf.1))
  | .countable e, .pylist vs => vs.all (conformsVal e)
  | .countable e, .pytuple vs => vs.all (conformsVal e)
  | _, _ => false

/-- One inclusion of Python dict equality: every entry of `a` is found in
`b`. -/
def pyDictLe (a b : List (String × Value)) : Bool :=
  a.all fun kv => decide (b.lookup kv.1 = some kv.2)

/-- Python `==` on payloads: dicts compare as finite maps (same keys, same
values), `list`s with `list`s and `tuple`s with `tuple`s elementwise — a
`list` is never `==` a `tuple`. -/
def payloadEqB : Payload → Payload → Bool
  | .dict a, .dict b => pyDictLe a b && pyDictLe b a
  | .pylist a, .pylist b => beqValues a b
  | .pytuple a, .pytuple b => beqValues a b
  | _, _ => false

/-- The payload a round trip realizes: each value tuplified; a sequence
payload comes back as a `tuple`. -/
def tuplifyPayload : Payload → Payload
  | .dict entries => .dict (entries.map fun kv => (kv.1, tuplify kv.2))
  | .pylist vs => .pytuple (tuplifyList vs)
  | .pytuple vs => .pytuple (tuplifyList vs)

theorem lookup_exists_of_mem_keys (l : List (String × Value)) (k : String)
    (h : k ∈ l.map Prod.fst) : ∃ v, l.lookup k = some v := by
  induction l with
  | nil => simp at h
  | cons kv l1 ih =>
    obtain ⟨k1, v1⟩ := kv
    by_cases he : k = k1
    · subst he
      exact ⟨v1, by simp [List.lookup]⟩
    · rw [List.map_cons] at h
      rcases List.mem_cons.mp h with h1 | h1
      · exact absurd h1 he
      · obtain ⟨v, hv⟩ := ih h1
        refine ⟨v, ?_⟩
        simp only [List.lookup, beq_eq_false_iff_ne.mpr he]
        exact hv

theorem lookup_of_mem_of_nodup (l : List (String × Value)) (k : String) (v : Value)
    (hnd : (l.map Prod.fst).Nodup) (hm : (k, v) ∈ l) : l.lookup k = some v := by
  induction l with
  | nil => simp at hm
  | cons kv l1 ih =>
    obtain ⟨k1, v1⟩ := kv
    rw [List.map_cons, List.nodup_cons] at hnd
    rcases List.mem_cons.mp hm with h1 | h1
    · rw [Prod.mk.injEq] at h1
      obtain ⟨rfl, rfl⟩ := h1
      simp [List.lookup]
    · have hkmem : k ∈ List.map Prod.fst l1 := List.mem_map_of_mem Prod.fst h1
      have hne : k ≠ k1 := fun he => hnd.1 (he ▸ hkmem)
      simp only [List.lookup, beq_eq_false_iff_ne.mpr hne]
      exact ih hnd.2 h1

theorem lookup_map_self (fs : List (String × Sedes)) (g : String → Value) (k : String)
    (h : k ∈ fs.map Prod.fst) :
    (fs.map fun nf => (nf.1, g nf.1)).lookup k = some (g k) := by
  induction fs with
  | nil => simp at h
  | cons nf fs1 ih =>
    rw [List.map_cons] at h ⊢
    by_cases he : k = nf.1
    · subst he
      simp [List.lookup]
    · rcases List.mem_cons.mp h with h1 | h1
      · exact absurd h1 he
      · simp only [List.lookup, beq_eq_false_iff_ne.mpr he]
        exact ih h1

theorem zipFields_map_self (fs : List (String × Sedes)) (g : (String × Sedes) → Value) :
    zipFields fs (fs.map g) = fs.map fun nf => (nf.1, g nf) := by
  induction fs with
  | nil => rfl
  | cons nf fs1 ih =>
    simp only [List.map_cons, zipFields, List.zip_cons_cons]
    simp only [zipFields] at ih
    rw [ih]

theorem lookup_map_value (l : List (String × Value)) (f : Value → Value) (k : String) :
    (l.map fun kv => (kv.1, f kv.2)).lookup k = (l.lookup k).map f := by
  induction l with
  | nil => rfl
  | cons kv l1 ih =>
    obtain ⟨k1, v1⟩ := kv
    by_cases he : k = k1
    · subst he
      simp [List.lookup]
    · simp only [List.map_cons, List.lookup, beq_eq_false_iff_ne.mpr he]
      exact ih

/-- `tuplify` after a field lookup, as a single function. -/
def tuplifyLookup (entries : List (String × Value)) (n : String) : Value :=
  tuplify (lookupVal entries n)

theorem tuplifyList_map_lookup (fs : List (String × Sedes))
    (entries : List (String × Value)) :
    tuplifyList (fs.map fun nf => lookupVal entries nf.1)
      = fs.map fun nf => tuplifyLookup entries nf.1 := by
  induction fs with
  | nil => rfl
  | cons nf fs1 ih => simp only [List.map_cons, tuplifyList, ih, tuplifyLookup]

/-- Serializing with a strict `List` sedes succeeding, the non-strict
variant produces the same item (the value already has exactly the declared
length). -/
theorem serSedes_sList_any_strict (ts : List Sedes) (b : Bool) (vs : List Value)
    (item : RLPItem) (h : serSedes (.sList ts true) (.vlist vs) = .ok item) :
    serSedes (.sList ts b) (.vlist vs) = .ok item := by
  rw [serSedes] at h ⊢
  split at h
  · exact absurd h (by simp)
  · rename_i hguard
    simp only [Bool.or_eq_true, Bool.and_eq_true, bne_iff_ne, ne_eq, decide_eq_true_eq,
      not_or, not_and, Decidable.not_not, not_lt, Bool.true_and] at hguard
    have hlen : vs.length = ts.length := by
      rcases Nat.lt_or_ge vs.length ts.length with hc | hc
      · omega
      · omega
    have hg2 : ¬ (((b && vs.length != ts.length) || ts.length < vs.length) = true) := by
      simp only [Bool.or_eq_true, Bool.and_eq_true, bne_iff_ne, ne_eq,
        decide_eq_true_eq, not_or, not_and, Decidable.not_not, not_lt]
      constructor
      · intro _
        exact hlen
      · omega
    rw [if_neg hg2]
    exact h

theorem rlpEncodeS_sList_any_strict (ts : List Sedes) (b : Bool) (vs : List Value)
    (bs : List Nat) (h : rlpEncodeS (.sList ts true) (.vlist vs) = .ok bs) :
    rlpEncodeS (.sList ts b) (.vlist vs) = .ok bs := by
  rw [rlpEncodeS] at h ⊢
  split at h
  · exact absurd h (by simp)
  · rename_i item hser
    rw [serSedes_sList_any_strict ts b vs item hser]
    exact h

theorem decode_payload_fields (cls : CmdSchema) (fs : List (String × Sedes))
    (bs : List Nat) (v : Value) (hstruc : cls.struc = .fields fs)
    (hdec : rlpDecodeS (.sList (fs.map Prod.snd) cls.decode_strict) bs = .ok v) :
    decode_payload cls bs = .ok (.dict (zipFields fs (asVList v))) := by
  rw [decode_payload, hstruc]
  simp only [hdec]

theorem decode_payload_countable (cls : CmdSchema) (e : Sedes)
    (bs : List Nat) (v : Value) (hstruc : cls.struc = .countable e)
    (hdec : rlpDecodeS (.countableList e) bs = .ok v) :
    decode_payload cls bs = .ok (.pytuple (asVList v)) := by
  rw [decode_payload, hstruc]
  simp only [hdec]

/-- C1 (amended) — Round trip: for every command schema and conforming
payload whose encoding succeeds (i.e. whose serialized form stays below
the codec's `256^8` length cap, past which `rlp.encode` fails with
`rlp.exceptions.EncodingError`), decoding the encoded payload returns the
original payload with every sequence value realized as a tuple
(`List`/`CountableList` deserialization returns tuples) — Python-equal to
the original itself exactly when the original's sequences are already
tuples, and never when one of them is a list. -/
theorem payload_roundtrip (cls : CmdSchema) (p : Payload) (bs : List Nat)
    (hconf : conforms cls p = true) (henc : encode_payload cls p = .ok bs) :
    ∃ q, decode_payload cls bs = .ok q ∧ payloadEqB q (tuplifyPayload p) = true := by
  cases hstruc : cls.struc with
  | countable e =>
    cases p with
    | dict entries =>
      unfold conforms at hconf
      rw [hstruc] at hconf
      simp at hconf
    | pylist vs =>
      have henc2 : rlpEncodeS (.countableList e) (.vlist vs) = .ok bs := by
        unfold encode_payload at henc
        rw [hstruc] at henc
        exact henc
      have hdec := rlpDecodeS_rlpEncodeS _ _ _ henc2
      refine ⟨.pytuple (tuplifyList vs), ?_, ?_⟩
      · exact decode_payload_countable cls e bs _ hstruc hdec
      · show beqValues (tuplifyList vs) (tuplifyList vs) = true
        exact (beqValues_iff _ _).mpr rfl
    | pytuple vs =>
      have henc2 : rlpEncodeS (.countableList e) (.vtuple vs) = .ok bs := by
        unfold encode_payload at henc
        rw [hstruc] at henc
        exact henc
      have hdec := rlpDecodeS_rlpEncodeS _ _ _ henc2
      refine ⟨.pytuple (tuplifyList vs), ?_, ?_⟩
      · exact decode_payload_countable cls e bs _ hstruc hdec
      · show beqValues (tuplifyList vs) (tuplifyList vs) = true
        exact (beqValues_iff _ _).mpr rfl
  | fields fs =>
    cases p with
    | pylist vs =>
      unfold conforms at hconf
      rw [hstruc] at hconf
      simp at hconf
    | pytuple vs =>
      unfold conforms at hconf
      rw [hstruc] at hconf
      simp at hconf
    | dict entries =>
      have hconf2 : (decide (entries.map Prod.fst).Nodup
          && (entries.map Prod.fst).isPerm (fs.map Prod.fst)
          && fs.all (fun nf => conformsVal nf.2 (lookupVal entries nf.1))) = true := by
        unfold conforms at hconf
        rw [hstruc] at hconf
        exact hconf
      simp only [Bool.and_eq_true, decide_eq_true_eq] at hconf2
      have hnodup := hconf2.1.1
      have hperm : (entries.map Prod.fst).Perm (fs.map Prod.fst) :=
        List.isPerm_iff.mp hconf2.1.2
      have henc2 : (if keysMatch (entries.map Prod.fst) (fs.map Prod.fst) then
          rlpEncodeS (.sList (fs.map Prod.snd) true)
            (.vlist (fs.map fun nf => lookupVal entries nf.1))
          else .error .valueError) = .ok bs := by
        unfold encode_payload at henc
        rw [hstruc] at henc
        exact henc
      rw [if_pos (show keysMatch (entries.map Prod.fst) (fs.map Prod.fst) = true
        from hconf2.1.2)] at henc2
      have henc3 := rlpEncodeS_sList_any_strict (fs.map Prod.snd) cls.decode_strict
        _ _ henc2
      have hdec := rlpDecodeS_rlpEncodeS _ _ _ henc3
      have hdp := decode_payload_fields cls fs bs _ hstruc hdec
      refine ⟨_, hdp, ?_⟩
      have hzip : zipFields fs
            (asVList (tuplify (.vlist (fs.map fun nf => lookupVal entries nf.1))))
          = fs.map fun nf => (nf.1, tuplifyLookup entries nf.1) := by
        show zipFields fs (tuplifyList (fs.map fun nf => lookupVal entries nf.1)) = _
        rw [tuplifyList_map_lookup]
        exact zipFields_map_self fs fun nf => tuplifyLookup entries nf.1
      rw [hzip]
      show (pyDictLe (fs.map fun nf => (nf.1, tuplifyLookup entries nf.1))
              (entries.map fun kv => (kv.1, tuplify kv.2))
            && pyDictLe (entries.map fun kv => (kv.1, tuplify kv.2))
              (fs.map fun nf => (nf.1, tuplifyLookup entries nf.1))) = true
      rw [Bool.and_eq_true]
      constructor
      · rw [pyDictLe, List.all_eq_true]
        intro kv hkv
        rw [decide_eq_true_eq]
        rcases List.mem_map.mp hkv with ⟨nf, hnf, rfl⟩
        show (entries.map fun kv => (kv.1, tuplify kv.2)).lookup nf.1
          = some (tuplifyLookup entries nf.1)
        have hk : nf.1 ∈ entries.map Prod.fst :=
          hperm.mem_iff.mpr (List.mem_map_of_mem Prod.fst hnf)
        obtain ⟨v, hv⟩ := lookup_exists_of_mem_keys entries nf.1 hk
        rw [lookup_map_value entries tuplify nf.1, hv, tuplifyLookup, lookupVal, hv]
        rfl
      · rw [pyDictLe, List.all_eq_true]
        intro kv hkv
        rw [decide_eq_true_eq]
        rcases List.mem_map.mp hkv with ⟨⟨k, v⟩, hmem, rfl⟩
        show (fs.map fun nf => (nf.1, tuplifyLookup entries nf.1)).lookup k
          = some (tuplify v)
        have hk : k ∈ fs.map Prod.fst :=
          hperm.mem_iff.mp (List.mem_map_of_mem Prod.fst hmem)
        rw [lookup_map_self fs (tuplifyLookup entries) k hk]
        have hv := lookup_of_mem_of_nodup entries k v hnodup hmem
        rw [tuplifyLookup, lookupVal, hv]
        rfl

/-- Witness for `payload_roundtrip`: a Disconnect payload (its only value
is an `int`, so tuplification leaves it unchanged here). -/
theorem payload_roundtrip_witness :
    ∃ q, decode_payload Disconnect [0xc1, 5] = .ok q
      ∧ payloadEqB q (tuplifyPayload (.dict [("reason", .vint 5)])) = true :=
  payload_roundtrip Disconnect (.dict [("reason", .vint 5)]) [0xc1, 5]
    (by decide) (by decide)

/-- A one-field `binary` schema and a conforming payload whose byte string
has length `256^8` — representable as a Python value, but beyond RLP's
length cap. -/
def c1CexSchema : CmdSchema :=
  { _cmd_id := 0
    struc := .fields [("data", .binary)] }

def c1CexPayload : Payload :=
  .dict [("data", .vbytes (List.replicate (256 ^ 8) 0))]

/-- A homogeneous-list schema (`structure = CountableList(big_endian_int)`),
for the sequence-mode counterexample. -/
def c1SeqSchema : CmdSchema :=
  { _cmd_id := 0
    struc := .countable .bigEndianInt }

theorem rlpEncodeS_item_err (s : Sedes) (v : Value) (item : RLPItem)
    (h1 : serSedes s v = .ok item) (h2 : encodeItemE item = .error ()) :
    rlpEncodeS s v = .error .encodingError := by
  rw [rlpEncodeS, h1]
  simp only [h2]

theorem encode_payload_fields_eq (cls : CmdSchema) (fs : List (String × Sedes))
    (entries : List (String × Value)) (hstruc : cls.struc = .fields fs)
    (hkeys : keysMatch (entries.map Prod.fst) (fs.map Prod.fst) = true) :
    encode_payload cls (.dict entries)
      = rlpEncodeS (.sList (fs.map Prod.snd) true)
          (.vlist (fs.map fun nf => lookupVal entries nf.1)) := by
  unfold encode_payload
  rw [hstruc]
  show (if keysMatch (entries.map Prod.fst) (fs.map Prod.fst) then
      rlpEncodeS (.sList (fs.map Prod.snd) true)
        (.vlist (fs.map fun nf => lookupVal entries nf.1))
    else .error .valueError) = _
  rw [if_pos hkeys]

/-- C1 (counterexample to the claim as stated), in two parts.  List versus
tuple: the conforming Python-list payload `[1]` encodes, but decoding
returns the tuple `(1,)` (`CountableList.deserialize` returns a tuple),
and `[1] == (1,)` is `False` in Python, so the round trip does not return
a payload `==` the original.  Length cap: the conforming one-field binary
payload of `256^8` bytes makes `rlp.encode` fail — `length_prefix` raises
`ValueError`, which `encode_raw` catches and re-raises as
`rlp.exceptions.EncodingError('Item too big to encode')` — so
`encode_payload` raises instead of producing bytes to decode. -/
theorem roundtrip_counterexample :
    (conforms c1SeqSchema (.pylist [.vint 1]) = true
      ∧ encode_payload c1SeqSchema (.pylist [.vint 1]) = .ok [0xc1, 1]
      ∧ decode_payload c1SeqSchema [0xc1, 1] = .ok (.pytuple [.vint 1])
      ∧ payloadEqB (.pytuple [.vint 1]) (.pylist [.vint 1]) = false)
    ∧ (conforms c1CexSchema c1CexPayload = true
      ∧ encode_payload c1CexSchema c1CexPayload = .error .encodingError) := by
  refine ⟨by decide, by decide, ?_⟩
  have hL : (List.replicate (256 ^ 8) (0 : Nat)).length = 256 ^ 8 :=
    List.length_replicate _ _
  have h1 : ¬ ((256 : Nat) ^ 8 < 56) := by norm_num
  have h2 : ¬ ((256 : Nat) ^ 8 < 256 ^ 8) := by norm_num
  have hstr : encodeItemE (.str (List.replicate (256 ^ 8) 0)) = .error () := by
    rw [encodeItemE, if_neg (by rw [hL]; norm_num)]
    rw [encLenE, hL, if_neg h1, if_neg h2]
  have hitems : encodeItemsE [.str (List.replicate (256 ^ 8) 0)] = .error () := by
    rw [encodeItemsE, hstr]
  have hlist : encodeItemE (.list [.str (List.replicate (256 ^ 8) 0)]) = .error () := by
    rw [encodeItemE, hitems]
  have hser : serSedes (.sList [Sedes.binary] true)
      (.vlist [.vbytes (List.replicate (256 ^ 8) 0)])
      = .ok (.list [.str (List.replicate (256 ^ 8) 0)]) := rfl
  have henc := rlpEncodeS_item_err _ _ _ hser hlist
  have heq := encode_payload_fields_eq c1CexSchema [("data", Sedes.binary)]
    [("data", Value.vbytes (List.replicate (256 ^ 8) 0))] rfl (by decide)
  rw [show c1CexPayload
      = Payload.dict [("data", Value.vbytes (List.replicate (256 ^ 8) 0))] from rfl]
  rw [heq]
  have hvals : [("data", Sedes.binary)].map
      (fun nf => lookupVal [("data", Value.vbytes (List.replicate (256 ^ 8) 0))] nf.1)
      = [Value.vbytes (List.replicate (256 ^ 8) 0)] := rfl
  rw [show ([("data", Sedes.binary)].map Prod.snd) = [Sedes.binary] from rfl, hvals]
  exact henc

end Trinity
